import Mathlib

/-!
Verification of the transformerlab-sdk lab persistence layer.

This file gives a shallow embedding of the filesystem-backed metadata store
implemented in src/lab (labresource.py, job.py, experiment.py) and proves or
refutes the specified properties against it.

Modelling conventions:
* JSON-readable files are modelled by their parsed content: an entry
  (name, some v) is a file whose text parses to the JSON value v, and
  (name, none) is a file whose text is not valid JSON (e.g. an empty file).
* A resource directory (ResourceDir) lists such files plus the raw text of
  the legacy pointer file latest.txt, kept apart because the code reads it
  as plain text, never as JSON.  json.load applied to latest.txt is modelled
  as a parse failure.
* Exceptions that the code catches are modelled by Option/flag results;
  operations whose exceptions are always caught by the caller are total.
-/

namespace Lab

/-- JSON values.  Objects are insertion-ordered association lists with
unique keys, matching Python dict semantics. -/
inductive JValue where
  | null
  | bool (b : Bool)
  | num (n : Int)
  | str (s : String)
  | arr (elems : List JValue)
  | obj (fields : List (String × JValue))
  deriving Repr

/-- Lookup of a key in a JSON-object field list (Python dict access). -/
def lookupField : List (String × JValue) → String → Option JValue
  | [], _ => none
  | (k, v) :: rest, key => if k = key then some v else lookupField rest key

/-- Python dict.get with a default. -/
def lookupFieldD (fs : List (String × JValue)) (key : String) (d : JValue) : JValue :=
  (lookupField fs key).getD d

/-- Python membership test: key in dict. -/
def hasField (fs : List (String × JValue)) (key : String) : Bool :=
  fs.any (fun p => p.1 = key)

/-- Python dict assignment d[k] = v: update in place if the key exists
(keeping its position), otherwise append at the end. -/
def setField : List (String × JValue) → String → JValue → List (String × JValue)
  | [], key, v => [(key, v)]
  | (k, w) :: rest, key, v =>
      if k = key then (key, v) :: rest else (k, w) :: setField rest key v

/-- Whether a JSON value is a Python dict at the top level. -/
def JValue.isObj : JValue → Bool
  | .obj _ => true
  | _ => false

/-!  Character-list string helpers.  The Python string operations used by
the code are re-implemented over the character list of the string, which
also makes them evaluate inside the kernel. -/

/-- The whitespace characters of Python str.strip and str.split. -/
def pyIsSpace (c : Char) : Bool :=
  c = ' ' || c = '\t' || c = '\n' || c = '\r' || c = Char.ofNat 11 || c = Char.ofNat 12

/-- Python str.startswith. -/
def strStartsWith (s pre : String) : Bool :=
  List.isPrefixOf pre.data s.data

/-- Python str.endswith. -/
def strEndsWith (s suf : String) : Bool :=
  List.isPrefixOf suf.data.reverse s.data.reverse

/-- Python str.strip(): drop whitespace from both ends. -/
def strTrim (s : String) : String :=
  String.mk (((s.data.dropWhile pyIsSpace).reverse.dropWhile pyIsSpace).reverse)

/-- Python slicing s[n:]. -/
def strDrop (s : String) (n : Nat) : String :=
  String.mk (s.data.drop n)

/-- Python slicing s[:-n]. -/
def strDropRight (s : String) (n : Nat) : String :=
  String.mk ((s.data.reverse.drop n).reverse)

/-- Worker of pySplitWs, carrying the reversed current word. -/
def pySplitWsGo : List Char → List Char → List String
  | [], cur => if cur.isEmpty then [] else [String.mk cur.reverse]
  | c :: rest, cur =>
      if pyIsSpace c then
        if cur.isEmpty then pySplitWsGo rest []
        else String.mk cur.reverse :: pySplitWsGo rest []
      else pySplitWsGo rest (c :: cur)

/-- Python str.split() with no argument: words separated by whitespace
runs, with no empty words. -/
def pySplitWs (cs : List Char) : List String :=
  pySplitWsGo cs []

/-- Join words with underscores (str.join). -/
def joinUnderscore : List String → String
  | [] => ""
  | [w] => w
  | w :: rest => w ++ "_" ++ joinUnderscore rest

/-!  Timestamps of legacy snapshot filenames.

The code parses the portion between "index-" and ".json" with
datetime.strptime(s, "%Y%m%dT%H%M%S%fZ").  We model that parse: fixed
4-digit year, 1-2 digit month/day/hour/minute/second following the ordered
regex alternations of Python strptime (with backtracking), a 1-6 digit
fraction right-padded to microseconds, literal T and Z, and datetime
validity checks (year at least 1, day within the month, second below 60).
-/

/-- Parsed timestamp, compared lexicographically like datetime. -/
structure Ts where
  year : Nat
  month : Nat
  day : Nat
  hour : Nat
  minute : Nat
  second : Nat
  micro : Nat
  deriving Repr, DecidableEq

/-- Strict datetime comparison (lexicographic). -/
def Ts.lt (a b : Ts) : Bool :=
  if a.year ≠ b.year then a.year < b.year
  else if a.month ≠ b.month then a.month < b.month
  else if a.day ≠ b.day then a.day < b.day
  else if a.hour ≠ b.hour then a.hour < b.hour
  else if a.minute ≠ b.minute then a.minute < b.minute
  else if a.second ≠ b.second then a.second < b.second
  else a.micro < b.micro

/-- Digit value of an ASCII digit character. -/
def digitVal (c : Char) : Nat := c.toNat - 48

/-- Parse exactly four digits (strptime %Y). -/
def pYear : List Char → Option (Nat × List Char)
  | a :: b :: c :: d :: rest =>
      if a.isDigit && b.isDigit && c.isDigit && d.isDigit then
        some (digitVal a * 1000 + digitVal b * 100 + digitVal c * 10 + digitVal d, rest)
      else none
  | _ => none

/-- Candidate parses for strptime month, in regex alternation order:
two digits 01-12 first, then a single digit 1-9. -/
def pMonth : List Char → List (Nat × List Char)
  | a :: b :: rest =>
      let twoDigit :=
        if a.isDigit && b.isDigit then
          let v := digitVal a * 10 + digitVal b
          if 1 ≤ v && v ≤ 12 && digitVal a ≤ 1 then [(v, rest)] else []
        else []
      let oneDigit :=
        if a.isDigit && 1 ≤ digitVal a then [(digitVal a, b :: rest)] else []
      twoDigit ++ oneDigit
  | [a] => if a.isDigit && 1 ≤ digitVal a then [(digitVal a, [])] else []
  | [] => []

/-- Candidate parses for strptime day: 01-31 as two digits, then 1-9. -/
def pDay : List Char → List (Nat × List Char)
  | a :: b :: rest =>
      let twoDigit :=
        if a.isDigit && b.isDigit then
          let v := digitVal a * 10 + digitVal b
          if 1 ≤ v && v ≤ 31 && digitVal a ≤ 3 then [(v, rest)] else []
        else []
      let oneDigit :=
        if a.isDigit && 1 ≤ digitVal a then [(digitVal a, b :: rest)] else []
      twoDigit ++ oneDigit
  | [a] => if a.isDigit && 1 ≤ digitVal a then [(digitVal a, [])] else []
  | [] => []

/-- Candidate parses for strptime hour: 00-23 as two digits, then one digit. -/
def pHour : List Char → List (Nat × List Char)
  | a :: b :: rest =>
      let twoDigit :=
        if a.isDigit && b.isDigit then
          let v := digitVal a * 10 + digitVal b
          if v ≤ 23 && digitVal a ≤ 2 then [(v, rest)] else []
        else []
      let oneDigit := if a.isDigit then [(digitVal a, b :: rest)] else []
      twoDigit ++ oneDigit
  | [a] => if a.isDigit then [(digitVal a, [])] else []
  | [] => []

/-- Candidate parses for strptime minute: 00-59 as two digits, then one digit. -/
def pMinute : List Char → List (Nat × List Char)
  | a :: b :: rest =>
      let twoDigit :=
        if a.isDigit && b.isDigit && digitVal a ≤ 5 then
          [(digitVal a * 10 + digitVal b, rest)]
        else []
      let oneDigit := if a.isDigit then [(digitVal a, b :: rest)] else []
      twoDigit ++ oneDigit
  | [a] => if a.isDigit then [(digitVal a, [])] else []
  | [] => []

/-- Candidate parses for strptime second: 60-61 or 00-59 as two digits,
then one digit (leap seconds are rejected later by datetime). -/
def pSecond : List Char → List (Nat × List Char)
  | a :: b :: rest =>
      let twoDigit :=
        if a.isDigit && b.isDigit then
          let v := digitVal a * 10 + digitVal b
          if v ≤ 61 && digitVal a ≤ 6 then [(v, rest)] else []
        else []
      let oneDigit := if a.isDigit then [(digitVal a, b :: rest)] else []
      twoDigit ++ oneDigit
  | [a] => if a.isDigit then [(digitVal a, [])] else []
  | [] => []

/-- Greedy fraction (strptime %f): one to six digits, right-padded with
zeros to microseconds.  Fails if no digit, or a seventh digit follows. -/
def pFrac (cs : List Char) : Option (Nat × List Char) :=
  let digits := cs.takeWhile Char.isDigit
  let rest := cs.dropWhile Char.isDigit
  if digits.length = 0 || digits.length > 6 then none
  else
    let v := digits.foldl (fun acc c => acc * 10 + digitVal c) 0
    some (v * 10 ^ (6 - digits.length), rest)

/-- Expect a literal character. -/
def pLit (c : Char) : List Char → Option (List Char)
  | x :: rest => if x = c then some rest else none
  | [] => none

/-- Days in a month, with Gregorian leap years (Python calendar rules). -/
def daysInMonth (y m : Nat) : Nat :=
  if m = 2 then
    if y % 4 = 0 && (y % 100 ≠ 0 || y % 400 = 0) then 29 else 28
  else if m = 4 || m = 6 || m = 9 || m = 11 then 30
  else 31

/-- Validity checks performed by the datetime constructor. -/
def tsValid (t : Ts) : Bool :=
  1 ≤ t.year && 1 ≤ t.day && t.day ≤ daysInMonth t.year t.month && t.second ≤ 59

/-- Parse a snapshot timestamp string with format %Y%m%dT%H%M%S%fZ,
taking the first fully-successful alternative (regex backtracking order).
Returns none when strptime or the datetime constructor would raise. -/
def parseTs (s : String) : Option Ts :=
  let cands : List Ts :=
    (pYear s.toList).toList.flatMap fun (y, cs) =>
    (pMonth cs).flatMap fun (m, cs) =>
    (pDay cs).flatMap fun (d, cs) =>
    (pLit 'T' cs).toList.flatMap fun cs =>
    (pHour cs).flatMap fun (h, cs) =>
    (pMinute cs).flatMap fun (mi, cs) =>
    (pSecond cs).flatMap fun (sec, cs) =>
    (pFrac cs).toList.flatMap fun (f, cs) =>
    (pLit 'Z' cs).toList.flatMap fun cs =>
      if cs.isEmpty then
        let t : Ts := ⟨y, m, d, h, mi, sec, f⟩
        if tsValid t then [t] else []
      else []
  cands.head?

/-! The resource directory state. -/

/-- State of one resource directory: its JSON-readable files (by name,
with parsed content, none meaning unparseable text) and the raw content
of latest.txt if that file exists.  File names are unique. -/
structure ResourceDir where
  files : List (String × Option JValue)
  latestTxt : Option String
  deriving Repr

/-- First entry with a given name in a file listing. -/
def lookupFile : List (String × Option JValue) → String → Option (Option JValue)
  | [], _ => none
  | (n, c) :: rest, name => if n = name then some c else lookupFile rest name

/-- Lookup a file by name: none = absent, some c = present with content c. -/
def ResourceDir.readFile (d : ResourceDir) (name : String) : Option (Option JValue) :=
  lookupFile d.files name

/-- os.path.isfile inside the resource directory.  A pointer target that
contains a path separator resolves outside the directory listing and is
modelled as absent. -/
def ResourceDir.isFile (d : ResourceDir) (name : String) : Bool :=
  (d.readFile name).isSome || (name = "latest.txt" && d.latestTxt.isSome)

/-- json.load of a file in the directory: some v only when the file exists
and parses.  latest.txt holds a bare filename, modelled as unparseable. -/
def ResourceDir.readJson (d : ResourceDir) (name : String) : Option JValue :=
  if name = "latest.txt" then none else (d.readFile name).bind id

/-- Replace-or-append write of a file entry, as open(name, "w") followed by
a full write: an existing file keeps its listing position. -/
def setFileEntry : List (String × Option JValue) → String → Option JValue →
    List (String × Option JValue)
  | [], name, c => [(name, c)]
  | (n, w) :: rest, name, c =>
      if n = name then (name, c) :: rest else (n, w) :: setFileEntry rest name c

/-- Write a file inside the directory. -/
def ResourceDir.writeFile (d : ResourceDir) (name : String) (c : Option JValue) :
    ResourceDir :=
  { d with files := setFileEntry d.files name c }

/-- Legacy snapshot filename test: startswith "index-" and endswith ".json". -/
def isSnapshotName (s : String) : Bool :=
  strStartsWith s "index-" && strEndsWith s ".json"

/-- Whether any timestamped snapshot file is present. -/
def ResourceDir.hasSnapshotFiles (d : ResourceDir) : Bool :=
  d.files.any (fun p => isSnapshotName p.1)

/-- Timestamp substring of a snapshot filename: filename[6:-5]. -/
def snapshotTsStr (name : String) : String :=
  strDropRight (strDrop name 6) 5

/-! Migration from the snapshot layout to the canonical index.json
(BaseLabResource._migrate_to_single_index). -/

/-- Candidate latest file via the latest.txt pointer: the stripped pointer
content, if non-empty and naming an existing file. -/
def pointerCandidate (d : ResourceDir) : Option String :=
  match d.latestTxt with
  | none => none
  | some content =>
      let name := strTrim content
      if name = "" then none
      else if d.isFile name then some name
      else none

/-- One step of the timestamp scan: keep the strictly greatest parseable
snapshot timestamp seen so far (first of equals wins). -/
def scanStep (acc : Option (Ts × String)) (p : String × Option JValue) :
    Option (Ts × String) :=
  if isSnapshotName p.1 then
    match parseTs (snapshotTsStr p.1) with
    | some t =>
        match acc with
        | none => some (t, p.1)
        | some (t0, n0) => if Ts.lt t0 t then some (t, p.1) else some (t0, n0)
    | none => acc
  else acc

/-- Candidate latest file by scanning snapshot filenames for the strictly
greatest parseable timestamp, in listing order. -/
def scanCandidate (d : ResourceDir) : Option String :=
  (d.files.foldl scanStep none).map Prod.snd

/-- The latest file the migration will use: the pointer when it resolves,
otherwise the scan result. -/
def selectLatest (d : ResourceDir) : Option String :=
  (pointerCandidate d).orElse (fun _ => scanCandidate d)

/-- First stage of a migration step: the new index.json is written. -/
def migrateWritten (d : ResourceDir) (v : JValue) : ResourceDir :=
  d.writeFile "index.json" (some v)

/-- Second stage: all index-*.json snapshot files and latest.txt removed. -/
def migrateCleanup (d : ResourceDir) : ResourceDir :=
  { files := d.files.filter (fun p => !isSnapshotName p.1), latestTxt := none }

/-- BaseLabResource._migrate_to_single_index on an existing directory.
Early return when index.json exists and no snapshot file remains; a latest
file whose content fails to parse aborts the step leaving everything as is. -/
def migrate (d : ResourceDir) : ResourceDir :=
  if (d.readFile "index.json").isSome && !d.hasSnapshotFiles then d
  else
    match selectLatest d with
    | none => d
    | some name =>
        match d.readJson name with
        | none => d
        | some v => migrateCleanup (migrateWritten d v)

/-! The generic JSON-document accessors of BaseLabResource. -/

/-- BaseLabResource.get_json_data: migrate, then parse index.json, with an
empty dict on a missing or unparseable file.  Returns the directory state
after migration together with the document. -/
def getJsonData (d : ResourceDir) : ResourceDir × JValue :=
  let d1 := migrate d
  (d1, (d1.readJson "index.json").getD (JValue.obj []))

/-- BaseLabResource._set_json_data: none models the TypeError raised before
anything is written when the document is not a dict; otherwise migrate and
overwrite index.json. -/
def setJsonData (d : ResourceDir) (v : JValue) : Option ResourceDir :=
  if v.isObj then some (migrateWritten (migrate d) v) else none

/-- BaseLabResource._update_json_data_field.  The Bool is false when the
code raises (document not a dict, so the item assignment fails); the
returned state keeps any migration side effect already on disk. -/
def updateJsonDataField (d : ResourceDir) (key : String) (value : JValue) :
    ResourceDir × Bool :=
  let p := getJsonData d
  match p.2 with
  | .obj fs =>
      match setJsonData p.1 (JValue.obj (setField fs key value)) with
      | some d2 => (d2, true)
      | none => (p.1, false)
  | _ => (p.1, false)

/-! Path and id sanitization (werkzeug.utils.secure_filename, POSIX,
restricted to ASCII input: the NFKD normalization step is the identity
there and is not modelled). -/

/-- Characters kept by the secure_filename strip regex: A-Za-z0-9_.- . -/
def isAllowedFilenameChar (c : Char) : Bool :=
  c.isAlpha || c.isDigit || c = '_' || c = '.' || c = '-'

/-- Drop leading and trailing dot/underscore characters (str.strip of chars). -/
def stripDotUnderscore (cs : List Char) : List Char :=
  let isEdge := fun c => c = '.' || c = '_'
  ((cs.dropWhile isEdge).reverse.dropWhile isEdge).reverse

/-- werkzeug secure_filename: drop non-ASCII, turn the path separator into a
space, join the whitespace-split words with underscores, drop disallowed
characters, and strip leading or trailing dots and underscores. -/
def secureFilename (s : String) : String :=
  let ascii := s.data.filter (fun c => c.toNat < 128)
  let sep := ascii.map (fun c => if c = '/' then ' ' else c)
  let joined := joinUnderscore (pySplitWs sep)
  let kept := joined.data.filter isAllowedFilenameChar
  String.mk (stripDotUnderscore kept)

/-- Python str() of a JSON scalar, as applied to a job id.  Composite
values never appear as ids in any property considered here and are mapped
to the empty string. -/
def pyStr : JValue → String
  | .str s => s
  | .num n => toString n
  | .bool true => "True"
  | .bool false => "False"
  | .null => "None"
  | _ => ""

/-! Job operations (job.py).  Paths are plain strings; jobsDir is the path
of the jobs root directory. -/

/-- Job.get_dir: jobs root joined with the sanitized id. -/
def jobDirPath (jobsDir idStr : String) : String :=
  jobsDir ++ "/" ++ secureFilename idStr

/-- Resolve a full path against a directory: the file name when the path
lies directly under it. -/
def pathInDir (dirPath p : String) : Option String :=
  if strStartsWith p (dirPath ++ "/") then some (strDrop p (dirPath.data.length + 1))
  else none

/-- os.path.exists for a path, given the job directory and the set of
existing external files. -/
def fsExists (dirPath : String) (d : ResourceDir) (ext : List String)
    (p : String) : Bool :=
  match pathInDir dirPath p with
  | some name => d.isFile name
  | none => ext.contains p

/-- Create an empty file at a path (open(p, "w") with no content): inside
the directory it becomes an unparseable entry, elsewhere it joins the
external file set. -/
def fsTouch (dirPath : String) (d : ResourceDir) (ext : List String)
    (p : String) : ResourceDir × List String :=
  match pathInDir dirPath p with
  | some name =>
      if name = "latest.txt" then ({ d with latestTxt := some "" }, ext)
      else (d.writeFile name none, ext)
  | none => (d, if ext.contains p then ext else ext ++ [p])

/-- Job.get_log_path: the default output_id.txt path inside the job
directory, unless that file does not exist yet and job_data carries a
non-blank output_file_path override; the chosen file is created empty when
absent.  Reading job_data may migrate the directory as a side effect; an
exception while reading it is caught and the default path kept. -/
def getLogPath (jobsDir idStr : String) (d : ResourceDir) (ext : List String) :
    String × ResourceDir × List String :=
  let dirPath := jobDirPath jobsDir idStr
  let defaultPath := dirPath ++ "/output_" ++ idStr ++ ".txt"
  let chosen : String × ResourceDir :=
    if fsExists dirPath d ext defaultPath then (defaultPath, d)
    else
      let p := getJsonData d
      match p.2 with
      | .obj fs =>
          match lookupFieldD fs "job_data" (JValue.obj []) with
          | .obj jfs =>
              match lookupField jfs "output_file_path" with
              | some (.str s) =>
                  if strTrim s ≠ "" then (s, p.1) else (defaultPath, p.1)
              | _ => (defaultPath, p.1)
          | _ => (defaultPath, p.1)
      | _ => (defaultPath, p.1)
  if fsExists dirPath chosen.2 ext chosen.1 then (chosen.1, chosen.2, ext)
  else
    let t := fsTouch dirPath chosen.2 ext chosen.1
    (chosen.1, t.1, t.2)

/-- Job._default_json, whose evaluation runs get_log_path and therefore can
itself change the directory and external files. -/
def jobDefaultJson (jobsDir idStr : String) (d : ResourceDir)
    (ext : List String) : JValue × ResourceDir × List String :=
  let r := getLogPath jobsDir idStr d ext
  (JValue.obj
      [("id", .str idStr),
       ("experiment_id", .str ""),
       ("job_data", .obj [("output_file_path", .str r.1)]),
       ("status", .str "NOT_STARTED"),
       ("type", .str "REMOTE"),
       ("progress", .num 0)],
    r.2.1, r.2.2)

/-- The self-heal step of BaseLabResource.get on an existing directory:
when index.json is absent, open(..., "w") first creates it empty, then the
default document is computed (possibly migrating) and dumped into it.  The
final bytes are modelled as exactly the default document. -/
def jobGetHeal (jobsDir idStr : String) (d : ResourceDir) (ext : List String) :
    ResourceDir × List String :=
  if (d.readFile "index.json").isSome then (d, ext)
  else
    let d0 := d.writeFile "index.json" none
    let r := jobDefaultJson jobsDir idStr d0 ext
    ((r.2.1).writeFile "index.json" (some r.1), r.2.2)

/-- Job.update_job_data_field: read the whole document, create the
job_data map if absent, set one key inside it, write the document back.
The Bool is false when the code raises (top-level document or job_data not
a dict); any migration side effect stays on disk. -/
def updateJobDataField (d : ResourceDir) (key : String) (value : JValue) :
    ResourceDir × Bool :=
  let p := getJsonData d
  match p.2 with
  | .obj fs =>
      let fs1 := if hasField fs "job_data" then fs
                 else fs ++ [("job_data", JValue.obj [])]
      match lookupField fs1 "job_data" with
      | some (.obj jfs) =>
          match setJsonData p.1 (JValue.obj (setField fs1 "job_data"
              (.obj (setField jfs key value)))) with
          | some d2 => (d2, true)
          | none => (p.1, false)
      | _ => (p.1, false)
  | _ => (p.1, false)

/-- Job.update_status: a single top-level field write. -/
def updateStatus (d : ResourceDir) (s : String) : ResourceDir × Bool :=
  updateJsonDataField d "status" (.str s)

/-- Job.delete: a soft delete that only records status DELETED. -/
def jobDelete (d : ResourceDir) : ResourceDir × Bool :=
  updateStatus d "DELETED"

/-- The optional score record of the completion protocol. -/
def scorePart : Option JValue → List (String × JValue)
  | some sc => [("score", sc)]
  | none => []

/-- An optional path record, kept only if non-empty after trimming. -/
def pathPart (key : String) : Option String → List (String × JValue)
  | some p => if strTrim p ≠ "" then [(key, JValue.str p)] else []
  | none => []

/-- The forced job_data.status record on a failed outcome. -/
def statusPart (outcome : String) : List (String × JValue) :=
  if outcome = "failed" then [("status", JValue.str "FAILED")] else []

/-- The sequence of job_data updates the completion protocol performs. -/
def completionUpdates (outcome details : String) (score : Option JValue)
    (ap pp : Option String) : List (String × JValue) :=
  [("completion_status", JValue.str outcome),
   ("completion_details", JValue.str details)] ++
  scorePart score ++ pathPart "additional_output_path" ap ++
  pathPart "plot_data_path" pp ++ statusPart outcome

/-- Modelled from the spec: Job.set_job_completion_status is absent from
src/ (only the test suite calls it).  Per the spec it fails with
InvalidArgument (none) unless the outcome is exactly "success" or
"failed"; it records outcome and details into job_data, stores the score
map verbatim when given, records each optional path only if non-empty
after trimming, and on "failed" also forces job_data.status = "FAILED".
Each record is one update_job_data_field call, applied in order. -/
def setJobCompletionStatus (d : ResourceDir) (outcome details : String)
    (score : Option JValue) (ap pp : Option String) : Option ResourceDir :=
  if !(outcome = "success" || outcome = "failed") then none
  else
    some ((completionUpdates outcome details score ap pp).foldl
      (fun s kv => (updateJobDataField s kv.1 kv.2).1) d)

/-! Experiment state and the jobs index (experiment.py).  The state holds
the experiment directory (if it exists), the listing of the jobs root, and
the set of files living outside both. -/

/-- One entry of the jobs root: a stray file, or a job directory. -/
inductive JobsEntry where
  | file
  | dir (d : ResourceDir)
  deriving Repr

/-- State touched by the experiment operations. -/
structure ExpState where
  expDir : Option ResourceDir
  jobs : List (String × JobsEntry)
  ext : List String
  deriving Repr

/-- First entry of the jobs root with the given name. -/
def lookupEntry : List (String × JobsEntry) → String → Option JobsEntry
  | [], _ => none
  | (n, e) :: rest, name => if n = name then some e else lookupEntry rest name

/-- Replace the first entry with the given name. -/
def updateEntry : List (String × JobsEntry) → String → JobsEntry →
    List (String × JobsEntry)
  | [], _, _ => []
  | (n, e) :: rest, name, e2 =>
      if n = name then (name, e2) :: rest else (n, e) :: updateEntry rest name e2

/-- Python str.isdigit, restricted to ASCII digits (other Unicode digits
would make int() raise, aborting the scan; not modelled). -/
def pyIsDigit (s : String) : Bool :=
  s ≠ "" && s.toList.all Char.isDigit

/-- Numeric value of an ASCII digit string. -/
def natOfDigits (s : String) : Nat :=
  s.toList.foldl (fun acc c => acc * 10 + digitVal c) 0

/-- Sort key of rebuild_jobs_index: int(name) for digit names, plus
infinity (none) otherwise. -/
def entrySortKey (name : String) : Option Nat :=
  if pyIsDigit name then some (natOfDigits name) else none

/-- Strict comparison of sort keys (int or infinity). -/
def entryKeyLt : Option Nat → Option Nat → Bool
  | some a, some b => a < b
  | some _, none => true
  | none, _ => false

/-- Stable insertion of an element before the first entry that is not
strictly below it. -/
def insertByLt (lt : String × JobsEntry → String × JobsEntry → Bool)
    (x : String × JobsEntry) : List (String × JobsEntry) →
    List (String × JobsEntry)
  | [] => [x]
  | y :: ys => if lt y x then y :: insertByLt lt x ys else x :: y :: ys

/-- Python sorted(entries, key=...): stable ascending sort.  A stable sort
of a total preorder is unique, so insertion sort is extensionally the
library sort the interpreter uses. -/
def sortJobEntries (entries : List (String × JobsEntry)) :
    List (String × JobsEntry) :=
  entries.foldr (insertByLt (fun a b => entryKeyLt (entrySortKey a.1) (entrySortKey b.1))) []

/-- Python == on dict keys restricted to JSON scalars: strings compare to
strings, numbers to numbers, and booleans equal the numbers 0 and 1. -/
def pyKeyEq : JValue → JValue → Bool
  | .str a, .str b => a = b
  | .null, .null => true
  | .num a, .num b => a = b
  | .bool a, .bool b => a = b
  | .bool true, .num n => n = 1
  | .bool false, .num n => n = 0
  | .num n, .bool true => n = 1
  | .num n, .bool false => n = 0
  | _, _ => false

/-- dict.setdefault(key, []).append(id): append to the first bucket whose
key equals the given one, else add a new bucket at the end. -/
def addToBucket : List (JValue × List String) → JValue → String →
    List (JValue × List String)
  | [], key, id => [(key, [id])]
  | (k, ids) :: rest, key, id =>
      if pyKeyEq k key then (k, ids ++ [id]) :: rest
      else (k, ids) :: addToBucket rest key id

/-- Python == between a JSON value and a string: true exactly for the
equal string (no other JSON value compares equal to a str). -/
def isStrVal (v : JValue) (s : String) : Bool :=
  match v with
  | .str t => t = s
  | _ => false

/-- Whether a JSON value can be a Python dict key (scalars only; a list or
dict raises TypeError: unhashable). -/
def JValue.isHashable : JValue → Bool
  | .arr _ => false
  | .obj _ => false
  | _ => true

/-- The scan loop of rebuild_jobs_index over the sorted entries.  Files
are skipped; an unreadable or unparseable index.json is skipped; a job
whose experiment_id differs is skipped.  A document that is not a dict, or
an unhashable type value, raises out of the loop into the outer handler
(none): the scan aborts and nothing is written. -/
def scanJobsAux (expId : String) (acc : List (JValue × List String)) :
    List (String × JobsEntry) → Option (List (JValue × List String))
  | [] => some acc
  | (_, .file) :: rest => scanJobsAux expId acc rest
  | (name, .dir d) :: rest =>
      match d.readJson "index.json" with
      | none => scanJobsAux expId acc rest
      | some data =>
          match data with
          | .obj fs =>
              if isStrVal (lookupFieldD fs "experiment_id" (.str "")) expId then
                let ty := lookupFieldD fs "type" (.str "UNKNOWN")
                if ty.isHashable then
                  scanJobsAux expId (addToBucket acc ty name) rest
                else none
              else scanJobsAux expId acc rest
          | _ => none

/-- Scan of the sorted jobs-root listing. -/
def scanJobs (expId : String) (entries : List (String × JobsEntry)) :
    Option (List (JValue × List String)) :=
  scanJobsAux expId [] (sortJobEntries entries)

/-- json.dump of a dict key: strings stay, other scalars are converted. -/
def jsonKeyStr : JValue → String
  | .str s => s
  | .num n => toString n
  | .bool true => "true"
  | .bool false => "false"
  | .null => "null"
  | _ => ""

/-- Content of jobs.json as json.load would give it back: buckets dumped
in order, duplicate serialized keys collapsing to the last value. -/
def bucketsToJson (buckets : List (JValue × List String)) : JValue :=
  .obj (buckets.foldl
    (fun acc p => setField acc (jsonKeyStr p.1) (.arr (p.2.map JValue.str))) [])

/-- Experiment.rebuild_jobs_index.  An aborted scan writes nothing; a scan
with zero matches writes nothing (the deliberate empty-scan guard); a
missing experiment directory makes the write fail, which is caught and
ignored. -/
def rebuildJobsIndex (expId : String) (st : ExpState) : ExpState :=
  match scanJobs expId st.jobs with
  | none => st
  | some results =>
      if results.isEmpty then st
      else
        match st.expDir with
        | none => st
        | some ed =>
            let ed2 := ed.writeFile "jobs.json" (some (bucketsToJson results))
            { st with expDir := some ed2 }

/-- Experiment._get_all_jobs: every element of every list value of the
parsed jobs.json, in bucket order; empty on any failure. -/
def getAllJobs (st : ExpState) : List JValue :=
  match st.expDir with
  | none => []
  | some ed =>
      match ed.readJson "jobs.json" with
      | some (.obj fs) =>
          fs.foldl (fun acc p =>
            match p.2 with
            | .arr xs => acc ++ xs
            | _ => acc) []
      | _ => []

/-- Experiment._get_jobs_of_type: the bucket of one type, with the empty
list on a missing key or on any failure. -/
def getJobsOfType (ty : String) (st : ExpState) : JValue :=
  match st.expDir with
  | none => .arr []
  | some ed =>
      match ed.readJson "jobs.json" with
      | some (.obj fs) => lookupFieldD fs ty (.arr [])
      | _ => .arr []

/-- Python iteration over a JSON value: list elements, string characters,
or dict keys; none models the TypeError of iterating anything else. -/
def iterElems : JValue → Option (List JValue)
  | .arr xs => some xs
  | .str s => some (s.toList.map (fun c => JValue.str (String.mk [c])))
  | .obj fs => some (fs.map (fun p => JValue.str p.1))
  | _ => none

/-- Job.get followed by get_json_data for one candidate id inside
Experiment.get_jobs: none models the caught exception of a missing or
non-directory entry; otherwise the state after self-heal and migration is
returned with the parsed document. -/
def loadJobDoc (jobsDir : String) (idv : JValue) (st : ExpState) :
    Option (ExpState × JValue) :=
  let name := secureFilename (pyStr idv)
  match lookupEntry st.jobs name with
  | some (.dir d) =>
      let healed := jobGetHeal jobsDir (pyStr idv) d st.ext
      let p := getJsonData healed.1
      let st1 := { st with jobs := updateEntry st.jobs name (.dir p.1) }
      some ({ st1 with ext := healed.2 }, p.2)
  | _ => none

/-- The filter loop of Experiment.get_jobs.  A document that is not a dict
raises out of the loop (none): the status access is unguarded there. -/
def getJobsLoop (jobsDir status : String) :
    List JValue → ExpState → List JValue → Option (ExpState × List JValue)
  | [], st, acc => some (st, acc)
  | idv :: rest, st, acc =>
      match loadJobDoc jobsDir idv st with
      | none => getJobsLoop jobsDir status rest st acc
      | some (st1, doc) =>
          match doc with
          | .obj fs =>
              if status ≠ "" && !isStrVal (lookupFieldD fs "status" (.str "")) status then
                getJobsLoop jobsDir status rest st1 acc
              else if status = "" && isStrVal (lookupFieldD fs "status" (.str "")) "DELETED" then
                getJobsLoop jobsDir status rest st1 acc
              else if hasField fs "job_data" then
                getJobsLoop jobsDir status rest st1 (acc ++ [doc])
              else
                getJobsLoop jobsDir status rest st1 acc
          | _ => none

/-- Experiment.get_jobs: rebuild the index, read the candidate ids (one
type or all), then load and filter each job.  none models an uncaught
TypeError or AttributeError escaping to the caller. -/
def expGetJobs (jobsDir expId ty status : String) (st : ExpState) :
    Option (ExpState × List JValue) :=
  let st1 := rebuildJobsIndex expId st
  let cands : Option (List JValue) :=
    if ty ≠ "" then iterElems (getJobsOfType ty st1)
    else some (getAllJobs st1)
  match cands with
  | none => none
  | some ids => getJobsLoop jobsDir status ids st1 []

/-- One iteration of Experiment.delete_all_jobs: Job.get then
Job.delete, with every exception caught (a missing job is skipped, and a
failed status write still keeps its migration side effect). -/
def deleteOneJob (jobsDir : String) (st : ExpState) (idv : JValue) : ExpState :=
  let name := secureFilename (pyStr idv)
  match lookupEntry st.jobs name with
  | some (.dir d) =>
      let healed := jobGetHeal jobsDir (pyStr idv) d st.ext
      let r := jobDelete healed.1
      let st1 := { st with jobs := updateEntry st.jobs name (.dir r.1) }
      { st1 with ext := healed.2 }
  | _ => st

/-- Experiment.delete_all_jobs over the ids currently in jobs.json. -/
def deleteAllJobs (jobsDir : String) (st : ExpState) : ExpState :=
  (getAllJobs st).foldl (deleteOneJob jobsDir) st

/-- Experiment.delete: best-effort soft delete of every indexed job, then
removal of the experiment directory. -/
def expDelete (jobsDir : String) (st : ExpState) : ExpState :=
  let st1 := deleteAllJobs jobsDir st
  { st1 with expDir := none }

/-- Snapshot-layout directory used as the concrete migration witness. -/
def c2dir : ResourceDir :=
  { files := [("index-20240102T120000000000Z.json", some (JValue.obj [("a", JValue.num 2)])),
              ("index-20240101T120000000000Z.json", some (JValue.obj [("a", JValue.num 1)]))],
    latestTxt := none }

/-- Experiment directory with a pre-existing jobs.json. -/
def c4expdir : ResourceDir :=
  { files := [("index.json", some (JValue.obj [("id", JValue.str "e1")])),
              ("jobs.json", some (JValue.obj [("TRAIN", JValue.arr [JValue.str "7"])]))],
    latestTxt := none }

/-- A job directory belonging to another experiment. -/
def c4jobdir : ResourceDir :=
  { files := [("index.json", some (JValue.obj [("experiment_id", JValue.str "other")]))],
    latestTxt := none }

/-- State with one job of another experiment and a pre-existing jobs.json,
used as the empty-scan witness. -/
def c4st : ExpState :=
  { expDir := some c4expdir, jobs := [("1", JobsEntry.dir c4jobdir)], ext := [] }

/-- Canonical job directory used for the frame witness: an object document
with id, experiment_id, status, type, progress and a one-key job_data. -/
def c10dir : ResourceDir :=
  { files := [("index.json", some (JValue.obj
      [("id", JValue.str "1"), ("experiment_id", JValue.str "e1"),
       ("job_data", JValue.obj [("k0", JValue.str "v0")]),
       ("status", JValue.str "NOT_STARTED"), ("type", JValue.str "REMOTE"),
       ("progress", JValue.num 0)]))],
    latestTxt := none }

/-- Ground truth of the reconciliation: a directory named id under the
jobs root whose index.json parses to an object whose experiment_id equals
the experiment. -/
def jobMatches (expId id : String) (entries : List (String × JobsEntry)) : Prop :=
  ∃ d fs, (id, JobsEntry.dir d) ∈ entries ∧
    d.readJson "index.json" = some (JValue.obj fs) ∧
    isStrVal (lookupFieldD fs "experiment_id" (JValue.str "")) expId = true

/-- Snapshot-only job directory whose snapshot content names experiment
e1, but which has no index.json. -/
def c9snapdir : ResourceDir :=
  { files := [("index-20240101T120000000000Z.json",
      some (JValue.obj [("experiment_id", JValue.str "e1")]))],
    latestTxt := none }

/-- Migrated job directory of the same experiment. -/
def c9okdir : ResourceDir :=
  { files := [("index.json", some (JValue.obj [("experiment_id", JValue.str "e1")]))],
    latestTxt := none }

/-- Jobs root with one migrated and one snapshot-only job. -/
def c9st : ExpState :=
  { expDir := some c4expdir,
    jobs := [("1", JobsEntry.dir c9okdir), ("5", JobsEntry.dir c9snapdir)],
    ext := [] }

/-- Ground truth with the type bucket: the job matches the experiment and
its type field (default UNKNOWN) equals the bucket key under Python key
equality. -/
def jobMatchesTyped (expId id : String) (ty : JValue)
    (entries : List (String × JobsEntry)) : Prop :=
  ∃ d fs, (id, JobsEntry.dir d) ∈ entries ∧
    d.readJson "index.json" = some (JValue.obj fs) ∧
    isStrVal (lookupFieldD fs "experiment_id" (JValue.str "")) expId = true ∧
    pyKeyEq (lookupFieldD fs "type" (JValue.str "UNKNOWN")) ty = true

/-- Well-formedness of the job directory a candidate id resolves to: if it
is a directory, its index.json exists (parsing to an object or failing)
and no snapshot files remain. -/
def cleanJobsAt (jobs : List (String × JobsEntry)) (name : String) : Prop :=
  ∀ d, lookupEntry jobs name = some (JobsEntry.dir d) →
    ((∃ fs, d.readFile "index.json" = some (some (JValue.obj fs))) ∨
      d.readFile "index.json" = some none) ∧
    d.hasSnapshotFiles = false

/-- The status and job_data filter of get_jobs on one document. -/
def passFilter (status : String) (fs : List (String × JValue)) : Bool :=
  (if status = "" then !(isStrVal (lookupFieldD fs "status" (JValue.str "")) "DELETED")
   else isStrVal (lookupFieldD fs "status" (JValue.str "")) status) &&
  hasField fs "job_data"

/-- What get_jobs keeps for one candidate id, read off the state: the
document of its directory when that passes the filters. -/
def docFilterSpec (jobs : List (String × JobsEntry)) (status : String)
    (idv : JValue) : Option JValue :=
  match lookupEntry jobs (secureFilename (pyStr idv)) with
  | some (.dir d) =>
      match (d.readJson "index.json").getD (JValue.obj []) with
      | .obj fs => if passFilter status fs then some (JValue.obj fs) else none
      | _ => none
  | _ => none

/-- Fields of the job document with an empty job_data map. -/
def c7dirFields : List (String × JValue) :=
  [("experiment_id", JValue.str "e1"), ("status", JValue.str "NOT_STARTED"),
   ("job_data", JValue.obj [])]

/-- A job directory whose document carries job_data as an empty map. -/
def c7dir : ResourceDir :=
  { files := [("index.json", some (JValue.obj c7dirFields))], latestTxt := none }

/-- State with a single job whose job_data is the empty map. -/
def c7st : ExpState :=
  { expDir := some c4expdir, jobs := [("1", JobsEntry.dir c7dir)], ext := [] }

/-- Job directory with both the default log file on disk and a non-blank
output_file_path override. -/
def c8dir : ResourceDir :=
  { files := [("index.json", some (JValue.obj [("job_data",
        JValue.obj [("output_file_path", JValue.str "/elsewhere/log.txt")])])),
      ("output_1.txt", none)],
    latestTxt := none }

/-- Job directory with only an index.json carrying an override. -/
def c8odir : ResourceDir :=
  { files := [("index.json", some (JValue.obj [("job_data",
        JValue.obj [("output_file_path", JValue.str "/tmp/o.txt")])]))],
    latestTxt := none }

/-- A canonical job directory with its document fields and job_data map. -/
def canonicalWith (d : ResourceDir) (fs jfs : List (String × JValue)) : Prop :=
  d.readFile "index.json" = some (some (JValue.obj fs)) ∧
  d.hasSnapshotFiles = false ∧
  hasField fs "job_data" = true ∧
  lookupField fs "job_data" = some (JValue.obj jfs)

/-- Canonical job directory for the completion witness. -/
def c6dir : ResourceDir :=
  { files := [("index.json", some (JValue.obj
      [("id", JValue.str "2"), ("job_data", JValue.obj []),
       ("status", JValue.str "RUNNING")]))],
    latestTxt := none }

/-- Well-formedness of a job entry for the delete pass: any directory it
names has a parseable object index.json and no snapshot files. -/
def cleanDelEntry (jobs : List (String × JobsEntry)) (name : String) : Prop :=
  ∀ d, lookupEntry jobs name = some (JobsEntry.dir d) →
    (∃ fs, d.readFile "index.json" = some (some (JValue.obj fs))) ∧
    d.hasSnapshotFiles = false

/-- A canonical job directory of experiment e1. -/
def c1job (eid : String) : ResourceDir :=
  { files := [("index.json", some (JValue.obj
      [("experiment_id", JValue.str eid), ("status", JValue.str "NOT_STARTED"),
       ("job_data", JValue.obj [])]))],
    latestTxt := none }

/-- Experiment directory indexing jobs 1, 2, 3 and the dangling id 9. -/
def c1expdir : ResourceDir :=
  { files := [("index.json", some (JValue.obj [("id", JValue.str "e1")])),
      ("jobs.json", some (JValue.obj [("TRAIN", JValue.arr
        [JValue.str "1", JValue.str "2", JValue.str "3", JValue.str "9"])]))],
    latestTxt := none }

/-- State with three indexed jobs on disk and one indexed id that no
longer exists. -/
def c1st : ExpState :=
  { expDir := some c1expdir,
    jobs := [("1", JobsEntry.dir (c1job "e1")), ("2", JobsEntry.dir (c1job "e1")),
             ("3", JobsEntry.dir (c1job "e1"))],
    ext := [] }

/-! Helper lemmas about association lists and file listings. -/

theorem lookupField_setField_self (fs : List (String × JValue)) (k : String)
    (v : JValue) : lookupField (setField fs k v) k = some v := by
  induction fs with
  | nil => simp [setField, lookupField]
  | cons p rest ih =>
      obtain ⟨a, b⟩ := p
      by_cases h : a = k
      · simp [setField, lookupField, h]
      · simp [setField, lookupField, h, ih]

theorem lookupField_setField_ne (fs : List (String × JValue)) (k k2 : String)
    (v : JValue) (h : k2 ≠ k) :
    lookupField (setField fs k v) k2 = lookupField fs k2 := by
  induction fs with
  | nil => simp [setField, lookupField, Ne.symm h]
  | cons p rest ih =>
      obtain ⟨a, b⟩ := p
      by_cases ha : a = k
      · subst ha
        simp [setField, lookupField, Ne.symm h]
      · simp [setField, lookupField, ha, ih]

theorem lookupField_isSome_of_hasField (fs : List (String × JValue)) (k : String)
    (h : hasField fs k = true) : (lookupField fs k).isSome := by
  induction fs with
  | nil => simp [hasField] at h
  | cons p rest ih =>
      obtain ⟨a, b⟩ := p
      by_cases ha : a = k
      · simp [lookupField, ha]
      · have h2 : hasField rest k = true := by
          have hx : (decide (a = k) || hasField rest k) = true := h
          simpa [ha] using hx
        simpa [lookupField, ha] using ih h2

theorem lookupField_none_of_not_hasField (fs : List (String × JValue)) (k : String)
    (h : hasField fs k = false) : lookupField fs k = none := by
  induction fs with
  | nil => simp [lookupField]
  | cons p rest ih =>
      obtain ⟨a, b⟩ := p
      by_cases ha : a = k
      · simp [hasField, ha] at h
      · have h2 : hasField rest k = false := by
          have hx : (decide (a = k) || hasField rest k) = false := h
          simpa [ha] using hx
        simpa [lookupField, ha] using ih h2

theorem lookupField_append_of_none (fs gs : List (String × JValue)) (k : String)
    (h : lookupField fs k = none) :
    lookupField (fs ++ gs) k = lookupField gs k := by
  induction fs with
  | nil => simp
  | cons p rest ih =>
      obtain ⟨a, b⟩ := p
      by_cases ha : a = k
      · simp [lookupField, ha] at h
      · simp [lookupField, ha] at h ⊢
        exact ih h

theorem lookupField_append_ne (fs : List (String × JValue)) (j k : String)
    (w : JValue) (h : k ≠ j) :
    lookupField (fs ++ [(j, w)]) k = lookupField fs k := by
  induction fs with
  | nil => simp [lookupField, Ne.symm h]
  | cons p rest ih =>
      obtain ⟨a, b⟩ := p
      by_cases ha : a = k
      · simp [lookupField, ha]
      · simp [lookupField, ha, ih]

theorem lookupFile_setFileEntry_self (fs : List (String × Option JValue))
    (n : String) (c : Option JValue) :
    lookupFile (setFileEntry fs n c) n = some c := by
  induction fs with
  | nil => simp [setFileEntry, lookupFile]
  | cons p rest ih =>
      obtain ⟨a, b⟩ := p
      by_cases h : a = n
      · simp [setFileEntry, lookupFile, h]
      · simp [setFileEntry, lookupFile, h, ih]

theorem lookupFile_setFileEntry_ne (fs : List (String × Option JValue))
    (n m : String) (c : Option JValue) (h : m ≠ n) :
    lookupFile (setFileEntry fs n c) m = lookupFile fs m := by
  induction fs with
  | nil => simp [setFileEntry, lookupFile, Ne.symm h]
  | cons p rest ih =>
      obtain ⟨a, b⟩ := p
      by_cases ha : a = n
      · subst ha
        simp [setFileEntry, lookupFile, Ne.symm h]
      · simp [setFileEntry, lookupFile, ha, ih]

theorem readFile_writeFile_self (d : ResourceDir) (n : String) (c : Option JValue) :
    (d.writeFile n c).readFile n = some c :=
  lookupFile_setFileEntry_self d.files n c

theorem readFile_writeFile_ne (d : ResourceDir) (n m : String) (c : Option JValue)
    (h : m ≠ n) : (d.writeFile n c).readFile m = d.readFile m :=
  lookupFile_setFileEntry_ne d.files n m c h

theorem latestTxt_writeFile (d : ResourceDir) (n : String) (c : Option JValue) :
    (d.writeFile n c).latestTxt = d.latestTxt := rfl

theorem setFileEntry_any_of_not (fs : List (String × Option JValue)) (n : String)
    (c : Option JValue) (p : String → Bool) (hn : p n = false) :
    (setFileEntry fs n c).any (fun e => p e.1) = fs.any (fun e => p e.1) := by
  induction fs with
  | nil => simp [setFileEntry, hn]
  | cons q rest ih =>
      obtain ⟨a, b⟩ := q
      by_cases ha : a = n
      · subst ha
        simp [setFileEntry, hn]
      · simp [setFileEntry, ha, ih]

theorem isSnapshotName_index_json : isSnapshotName "index.json" = false := by decide

theorem hasSnapshotFiles_writeFile (d : ResourceDir) (n : String)
    (c : Option JValue) (hn : isSnapshotName n = false) :
    (d.writeFile n c).hasSnapshotFiles = d.hasSnapshotFiles :=
  setFileEntry_any_of_not d.files n c isSnapshotName hn

theorem hasSnapshotFiles_cleanup (d : ResourceDir) :
    (migrateCleanup d).hasSnapshotFiles = false := by
  unfold migrateCleanup ResourceDir.hasSnapshotFiles
  simp only [List.any_eq_false]
  intro e he
  simp only [List.mem_filter] at he
  simpa using he.2

theorem lookupFile_filter_of_keep (fs : List (String × Option JValue))
    (p : String → Bool) (n : String) (hn : p n = true) :
    lookupFile (fs.filter (fun e => p e.1)) n = lookupFile fs n := by
  induction fs with
  | nil => simp
  | cons q rest ih =>
      obtain ⟨a, b⟩ := q
      by_cases ha : a = n
      · subst ha
        simp [List.filter, hn, lookupFile]
      · by_cases hp : p a
        · simp [List.filter, hp, lookupFile, ha, ih]
        · simp [List.filter, hp, lookupFile, ha, ih]

theorem readFile_cleanup (d : ResourceDir) (n : String)
    (hn : isSnapshotName n = false) :
    (migrateCleanup d).readFile n = d.readFile n := by
  unfold migrateCleanup ResourceDir.readFile
  exact lookupFile_filter_of_keep d.files (fun s => !isSnapshotName s) n (by simp [hn])

theorem foldl_scanStep_setFileEntry (fs : List (String × Option JValue))
    (n : String) (c : Option JValue) (hn : isSnapshotName n = false) :
    ∀ acc, (setFileEntry fs n c).foldl scanStep acc = fs.foldl scanStep acc := by
  induction fs with
  | nil =>
      intro acc
      simp [setFileEntry, scanStep, hn]
  | cons p rest ih =>
      intro acc
      obtain ⟨a, b⟩ := p
      by_cases ha : a = n
      · subst ha
        simp [setFileEntry, List.foldl_cons, scanStep, hn]
      · simp [setFileEntry, ha, List.foldl_cons, ih]

theorem scanCandidate_writeFile (d : ResourceDir) (n : String) (c : Option JValue)
    (hn : isSnapshotName n = false) :
    scanCandidate (d.writeFile n c) = scanCandidate d := by
  unfold scanCandidate
  rw [show (d.writeFile n c).files = setFileEntry d.files n c from rfl,
    foldl_scanStep_setFileEntry d.files n c hn]

theorem isFile_writeFile_ne (d : ResourceDir) (n m : String) (c : Option JValue)
    (h : m ≠ n) : (d.writeFile n c).isFile m = d.isFile m := by
  unfold ResourceDir.isFile
  rw [readFile_writeFile_ne d n m c h, latestTxt_writeFile]

theorem isFile_writeFile_of_isFile (d : ResourceDir) (n m : String)
    (c : Option JValue) (h : d.isFile m = true) :
    (d.writeFile n c).isFile m = true := by
  by_cases hm : m = n
  · subst hm
    unfold ResourceDir.isFile
    rw [readFile_writeFile_self]
    rfl
  · rw [isFile_writeFile_ne d n m c hm]
    exact h

theorem pointerCandidate_writeFile_some_ne (d : ResourceDir) (n : String)
    (c : Option JValue) (f : String)
    (h : pointerCandidate (d.writeFile n c) = some f) (hf : f ≠ n) :
    pointerCandidate d = some f := by
  unfold pointerCandidate at h ⊢
  rw [latestTxt_writeFile] at h
  cases hl : d.latestTxt with
  | none =>
      rw [hl] at h
      exact absurd h (by simp)
  | some content =>
      rw [hl] at h
      dsimp only at h ⊢
      by_cases hemp : strTrim content = ""
      · rw [if_pos hemp] at h
        exact absurd h (by simp)
      · rw [if_neg hemp] at h ⊢
        by_cases hfl : (d.writeFile n c).isFile (strTrim content) = true
        · rw [if_pos hfl] at h
          have hname : strTrim content = f := by
            injection h
          subst hname
          rw [if_pos]
          rw [← isFile_writeFile_ne d n _ c hf]
          exact hfl
        · rw [if_neg hfl] at h
          exact absurd h (by simp)

theorem pointerCandidate_writeFile_none (d : ResourceDir) (n : String)
    (c : Option JValue)
    (h : pointerCandidate (d.writeFile n c) = none) :
    pointerCandidate d = none := by
  unfold pointerCandidate at h ⊢
  rw [latestTxt_writeFile] at h
  cases hl : d.latestTxt with
  | none => rfl
  | some content =>
      rw [hl] at h
      dsimp only at h ⊢
      by_cases hemp : strTrim content = ""
      · rw [if_pos hemp]
      · rw [if_neg hemp] at h ⊢
        by_cases hfl : d.isFile (strTrim content) = true
        · have hef : (d.writeFile n c).isFile (strTrim content) = true :=
            isFile_writeFile_of_isFile d n _ c hfl
          rw [if_pos hef] at h
          exact absurd h (by simp)
        · rw [if_neg hfl]

theorem index_json_ne_latest_txt : ("index.json" = "latest.txt") = False := by
  simp

theorem readJson_eq_some_of_readFile (d : ResourceDir) (v : JValue)
    (h : d.readFile "index.json" = some (some v)) :
    d.readJson "index.json" = some v := by
  unfold ResourceDir.readJson
  rw [if_neg (by decide), h]
  rfl

/-- The migration step is idempotent: a second run is a no-op. -/
theorem migrate_idem (d : ResourceDir) : migrate (migrate d) = migrate d := by
  have hmain : migrate d = d ∨ ∃ v, migrate d = migrateCleanup (migrateWritten d v) := by
    by_cases h1 : ((d.readFile "index.json").isSome && !d.hasSnapshotFiles) = true
    · left
      simp [migrate, h1]
    · cases hsel : selectLatest d with
      | none => left; simp [migrate, h1, hsel]
      | some name =>
          cases hread : d.readJson name with
          | none => left; simp [migrate, h1, hsel, hread]
          | some v =>
              right
              exact ⟨v, by simp [migrate, h1, hsel, hread]⟩
  rcases hmain with h | ⟨v, h⟩
  · rw [h]
    exact h
  · rw [h]
    have hr1 : (migrateCleanup (migrateWritten d v)).readFile "index.json" =
        some (some v) := by
      rw [readFile_cleanup _ _ isSnapshotName_index_json]
      exact readFile_writeFile_self d "index.json" (some v)
    have hr2 : (migrateCleanup (migrateWritten d v)).hasSnapshotFiles = false :=
      hasSnapshotFiles_cleanup _
    simp [migrate, hr1, hr2]

/-- Writing a fresh document to index.json of a migration-stable directory
and migrating again still reads back exactly that document. -/
theorem migrate_write_read (d : ResourceDir) (v : JValue) (hm : migrate d = d) :
    (migrate (d.writeFile "index.json" (some v))).readJson "index.json" = some v := by
  have hei : (d.writeFile "index.json" (some v)).readFile "index.json" =
      some (some v) := readFile_writeFile_self d "index.json" (some v)
  by_cases hs : (d.writeFile "index.json" (some v)).hasSnapshotFiles = true
  · have hds : d.hasSnapshotFiles = true := by
      rw [← hasSnapshotFiles_writeFile d "index.json" (some v) isSnapshotName_index_json]
      exact hs
    cases hsel : selectLatest (d.writeFile "index.json" (some v)) with
    | none =>
        have : migrate (d.writeFile "index.json" (some v)) =
            d.writeFile "index.json" (some v) := by
          simp [migrate, hei, hs, hsel]
        rw [this]
        exact readJson_eq_some_of_readFile _ v hei
    | some f =>
        cases hread : (d.writeFile "index.json" (some v)).readJson f with
        | none =>
            have : migrate (d.writeFile "index.json" (some v)) =
                d.writeFile "index.json" (some v) := by
              simp [migrate, hei, hs, hsel, hread]
            rw [this]
            exact readJson_eq_some_of_readFile _ v hei
        | some w =>
            have hmig : migrate (d.writeFile "index.json" (some v)) =
                migrateCleanup (migrateWritten (d.writeFile "index.json" (some v)) w) := by
              simp [migrate, hei, hs, hsel, hread]
            by_cases hf : f = "index.json"
            · subst hf
              have hw : w = v := by
                have hrj := readJson_eq_some_of_readFile _ v hei
                rw [hrj] at hread
                injection hread with h2
                exact h2.symm
              subst hw
              rw [hmig]
              apply readJson_eq_some_of_readFile
              rw [readFile_cleanup _ _ isSnapshotName_index_json]
              exact readFile_writeFile_self _ "index.json" (some w)
            · exfalso
              have hlat : f ≠ "latest.txt" := by
                intro hfl
                rw [hfl] at hread
                unfold ResourceDir.readJson at hread
                rw [if_pos rfl] at hread
                exact Option.noConfusion hread
              have hrf : d.readJson f = some w := by
                unfold ResourceDir.readJson at hread ⊢
                rw [if_neg hlat] at hread ⊢
                rw [readFile_writeFile_ne d "index.json" f (some v) hf] at hread
                exact hread
              have hseld : selectLatest d = some f := by
                unfold selectLatest at hsel ⊢
                cases hp : pointerCandidate (d.writeFile "index.json" (some v)) with
                | some g =>
                    rw [hp] at hsel
                    have hg : g = f := by
                      simpa [Option.orElse] using hsel
                    subst hg
                    rw [pointerCandidate_writeFile_some_ne d "index.json" (some v) g hp hf]
                    rfl
                | none =>
                    rw [hp] at hsel
                    have hscan : scanCandidate (d.writeFile "index.json" (some v)) = some f := by
                      simpa [Option.orElse] using hsel
                    rw [pointerCandidate_writeFile_none d "index.json" (some v) hp]
                    rw [← scanCandidate_writeFile d "index.json" (some v) isSnapshotName_index_json]
                    rw [hscan]
                    rfl
              have hcond : ((d.readFile "index.json").isSome && !d.hasSnapshotFiles) = false := by
                rw [hds]
                simp
              have hmigd : migrate d = migrateCleanup (migrateWritten d w) := by
                simp [migrate, hcond, hseld, hrf]
              rw [hm] at hmigd
              have : d.hasSnapshotFiles = false := by
                rw [hmigd]
                exact hasSnapshotFiles_cleanup _
              rw [hds] at this
              exact Bool.noConfusion this
  · have hs2 : (d.writeFile "index.json" (some v)).hasSnapshotFiles = false := by
      revert hs
      cases (d.writeFile "index.json" (some v)).hasSnapshotFiles <;> simp
    have : migrate (d.writeFile "index.json" (some v)) =
        d.writeFile "index.json" (some v) := by
      simp [migrate, hei, hs2]
    rw [this]
    exact readJson_eq_some_of_readFile _ v hei

theorem setFileEntry_filter_of_not (fs : List (String × Option JValue))
    (n : String) (c : Option JValue) (p : String → Bool) (hn : p n = false) :
    (setFileEntry fs n c).filter (fun e => p e.1) = fs.filter (fun e => p e.1) := by
  induction fs with
  | nil => simp [setFileEntry, hn]
  | cons q rest ih =>
      obtain ⟨a, b⟩ := q
      by_cases ha : a = n
      · subst ha
        simp [setFileEntry, hn]
      · by_cases hp : p a
        · simp [setFileEntry, ha, List.filter, hp, ih]
        · simp [setFileEntry, ha, List.filter, hp, ih]

/-- C2: the snapshot-to-canonical migration is idempotent, converges
index.json to the content of the latest snapshot when snapshot files are
present (resolved via latest.txt when valid, otherwise by maximal parsed
timestamp, as captured by selectLatest), is a no-op on an
already-canonical directory and on a failed read, and the intermediate
write stage has the new index.json while every old snapshot file and the
pointer are still in place. -/
theorem migration_idempotent_and_safe (d : ResourceDir) :
    (migrate (migrate d) = migrate d) ∧
    ((d.readFile "index.json").isSome = true → d.hasSnapshotFiles = false →
      migrate d = d) ∧
    (∀ name v, d.hasSnapshotFiles = true → selectLatest d = some name →
      d.readJson name = some v →
      ((migrate d).readJson "index.json" = some v ∧
       migrate d = migrateCleanup (migrateWritten d v) ∧
       (migrateWritten d v).readJson "index.json" = some v ∧
       (migrateWritten d v).files.filter (fun p => isSnapshotName p.1) =
         d.files.filter (fun p => isSnapshotName p.1) ∧
       (migrateWritten d v).latestTxt = d.latestTxt)) ∧
    (∀ name, selectLatest d = some name → d.readJson name = none →
      migrate d = d) ∧
    (selectLatest d = none → migrate d = d) := by
  refine ⟨migrate_idem d, ?_, ?_, ?_, ?_⟩
  · intro h1 h2
    simp [migrate, h1, h2]
  · intro name v hs hsel hread
    have hcond : ((d.readFile "index.json").isSome && !d.hasSnapshotFiles) = false := by
      rw [hs]
      simp
    have hmig : migrate d = migrateCleanup (migrateWritten d v) := by
      simp [migrate, hcond, hsel, hread]
    refine ⟨?_, hmig, ?_, ?_, rfl⟩
    · rw [hmig]
      apply readJson_eq_some_of_readFile
      rw [readFile_cleanup _ _ isSnapshotName_index_json]
      exact readFile_writeFile_self d "index.json" (some v)
    · exact readJson_eq_some_of_readFile _ v (readFile_writeFile_self d "index.json" (some v))
    · exact setFileEntry_filter_of_not d.files "index.json" (some v) isSnapshotName
        isSnapshotName_index_json
  · intro name hsel hread
    by_cases h1 : ((d.readFile "index.json").isSome && !d.hasSnapshotFiles) = true
    · simp [migrate, h1]
    · simp [migrate, h1, hsel, hread]
  · intro hsel
    by_cases h1 : ((d.readFile "index.json").isSome && !d.hasSnapshotFiles) = true
    · simp [migrate, h1]
    · simp [migrate, h1, hsel]

theorem migration_idempotent_and_safe_witness :
    (migrate (migrate c2dir) = migrate c2dir) ∧
    (migrate c2dir).readJson "index.json" = some (JValue.obj [("a", JValue.num 2)]) :=
  ⟨(migration_idempotent_and_safe c2dir).1,
   ((migration_idempotent_and_safe c2dir).2.2.1 "index-20240102T120000000000Z.json"
      (JValue.obj [("a", JValue.num 2)]) (by decide) (by decide) rfl).1⟩

/-- C5: writing a JSON-object document and reading it back returns exactly
that document; a non-object document is rejected (TypeError) before
anything is written, so the stored document is untouched (the error branch
of setJsonData returns no new state). -/
theorem write_read_roundtrip (d : ResourceDir) (v : JValue) :
    (v.isObj = true → ∃ d1, setJsonData d v = some d1 ∧ (getJsonData d1).2 = v) ∧
    (v.isObj = false → setJsonData d v = none) := by
  constructor
  · intro h
    refine ⟨migrateWritten (migrate d) v, by simp [setJsonData, h], ?_⟩
    have hr := migrate_write_read (migrate d) v (migrate_idem d)
    unfold getJsonData
    dsimp only
    rw [show migrateWritten (migrate d) v =
      (migrate d).writeFile "index.json" (some v) from rfl]
    rw [hr]
    rfl
  · intro h
    simp [setJsonData, h]

theorem write_read_roundtrip_witness :
    (∃ d1, setJsonData c2dir (JValue.obj [("x", JValue.str "y")]) = some d1 ∧
      (getJsonData d1).2 = JValue.obj [("x", JValue.str "y")]) ∧
    setJsonData c2dir (JValue.arr [JValue.num 3]) = none :=
  ⟨(write_read_roundtrip c2dir (JValue.obj [("x", JValue.str "y")])).1 rfl,
   (write_read_roundtrip c2dir (JValue.arr [JValue.num 3])).2 rfl⟩

/-- C4: a rebuild whose scan completes with zero matching jobs writes
nothing: the whole state, in particular the pre-existing jobs.json, is
unchanged. -/
theorem rebuild_empty_scan_guard (expId : String) (st : ExpState)
    (h : scanJobs expId st.jobs = some []) : rebuildJobsIndex expId st = st := by
  unfold rebuildJobsIndex
  rw [h]
  rfl

theorem rebuild_empty_scan_guard_witness : rebuildJobsIndex "e1" c4st = c4st :=
  rebuild_empty_scan_guard "e1" c4st rfl

/-- C10: update_job_data_field on a job whose stored document is a JSON
object (with a job_data map that is an object or absent) changes only the
given key inside job_data: every other key of job_data and every top-level
field other than job_data read back unchanged. -/
theorem update_job_data_field_frame (d : ResourceDir) (key : String)
    (value : JValue) (fs jfs0 : List (String × JValue))
    (hdoc : (getJsonData d).2 = JValue.obj fs)
    (hjd : lookupFieldD fs "job_data" (JValue.obj []) = JValue.obj jfs0) :
    (updateJobDataField d key value).2 = true ∧
    ∃ fs2, (getJsonData (updateJobDataField d key value).1).2 = JValue.obj fs2 ∧
      lookupField fs2 "job_data" = some (JValue.obj (setField jfs0 key value)) ∧
      lookupField (setField jfs0 key value) key = some value ∧
      (∀ k, k ≠ "job_data" → lookupField fs2 k = lookupField fs k) ∧
      (∀ k, k ≠ key → lookupField (setField jfs0 key value) k = lookupField jfs0 k) := by
  have hmid : migrate (migrate d) = migrate d := migrate_idem d
  by_cases hhf : hasField fs "job_data" = true
  · have hsome := lookupField_isSome_of_hasField fs "job_data" hhf
    obtain ⟨x, hx⟩ := Option.isSome_iff_exists.mp hsome
    have hxv : x = JValue.obj jfs0 := by
      unfold lookupFieldD at hjd
      rw [hx] at hjd
      exact hjd
    subst hxv
    have hupd : updateJobDataField d key value =
        ((migrate (migrate d)).writeFile "index.json"
          (some (JValue.obj (setField fs "job_data"
            (JValue.obj (setField jfs0 key value))))), true) := by
      simp only [updateJobDataField, hdoc, hhf, if_true, hx, setJsonData,
        JValue.isObj]
      rfl
    rw [hupd]
    refine ⟨rfl, setField fs "job_data" (JValue.obj (setField jfs0 key value)), ?_, ?_, ?_, ?_, ?_⟩
    · unfold getJsonData
      dsimp only
      rw [hmid]
      rw [migrate_write_read (migrate d) _ hmid]
      rfl
    · exact lookupField_setField_self fs "job_data" _
    · exact lookupField_setField_self jfs0 key value
    · intro k hk
      exact lookupField_setField_ne fs "job_data" k _ hk
    · intro k hk
      exact lookupField_setField_ne jfs0 key k value hk
  · have hnone : lookupField fs "job_data" = none := by
      apply lookupField_none_of_not_hasField
      revert hhf
      cases hasField fs "job_data" <;> simp
    have hjfs0 : jfs0 = [] := by
      unfold lookupFieldD at hjd
      rw [hnone] at hjd
      injection hjd with h2
      exact h2.symm
    subst hjfs0
    have hlk1 : lookupField (fs ++ [("job_data", JValue.obj [])]) "job_data" =
        some (JValue.obj []) := by
      rw [lookupField_append_of_none fs _ "job_data" hnone]
      simp [lookupField]
    have hupd : updateJobDataField d key value =
        ((migrate (migrate d)).writeFile "index.json"
          (some (JValue.obj (setField (fs ++ [("job_data", JValue.obj [])]) "job_data"
            (JValue.obj (setField [] key value))))), true) := by
      simp only [updateJobDataField, hdoc, setJsonData, JValue.isObj]
      rw [if_neg hhf, hlk1]
      rfl
    rw [hupd]
    refine ⟨rfl, setField (fs ++ [("job_data", JValue.obj [])]) "job_data"
      (JValue.obj (setField [] key value)), ?_, ?_, ?_, ?_, ?_⟩
    · unfold getJsonData
      dsimp only
      rw [hmid]
      rw [migrate_write_read (migrate d) _ hmid]
      rfl
    · exact lookupField_setField_self _ "job_data" _
    · exact lookupField_setField_self [] key value
    · intro k hk
      rw [lookupField_setField_ne _ "job_data" k _ hk]
      exact lookupField_append_ne fs "job_data" k _ hk
    · intro k hk
      exact lookupField_setField_ne [] key k value hk

theorem update_job_data_field_frame_witness :
    (updateJobDataField c10dir "k1" (JValue.str "v1")).2 = true ∧
    ∃ fs2, (getJsonData (updateJobDataField c10dir "k1" (JValue.str "v1")).1).2 =
        JValue.obj fs2 ∧
      lookupField fs2 "job_data" = some (JValue.obj
        (setField [("k0", JValue.str "v0")] "k1" (JValue.str "v1"))) ∧
      lookupField (setField [("k0", JValue.str "v0")] "k1" (JValue.str "v1")) "k1" =
        some (JValue.str "v1") ∧
      (∀ k, k ≠ "job_data" → lookupField fs2 k = lookupField
        [("id", JValue.str "1"), ("experiment_id", JValue.str "e1"),
         ("job_data", JValue.obj [("k0", JValue.str "v0")]),
         ("status", JValue.str "NOT_STARTED"), ("type", JValue.str "REMOTE"),
         ("progress", JValue.num 0)] k) ∧
      (∀ k, k ≠ "k1" → lookupField (setField [("k0", JValue.str "v0")] "k1"
        (JValue.str "v1")) k = lookupField [("k0", JValue.str "v0")] k) :=
  update_job_data_field_frame c10dir "k1" (JValue.str "v1")
    [("id", JValue.str "1"), ("experiment_id", JValue.str "e1"),
     ("job_data", JValue.obj [("k0", JValue.str "v0")]),
     ("status", JValue.str "NOT_STARTED"), ("type", JValue.str "REMOTE"),
     ("progress", JValue.num 0)]
    [("k0", JValue.str "v0")] rfl rfl

/-! Membership characterization of the rebuild scan. -/

theorem mem_insertByLt (lt : String × JobsEntry → String × JobsEntry → Bool)
    (x y : String × JobsEntry) (l : List (String × JobsEntry)) :
    y ∈ insertByLt lt x l ↔ y = x ∨ y ∈ l := by
  induction l with
  | nil => simp [insertByLt]
  | cons z rest ih =>
      simp only [insertByLt]
      by_cases h : lt z x = true
      · rw [if_pos h]
        simp only [List.mem_cons, ih]
        tauto
      · rw [if_neg h]
        simp only [List.mem_cons]

theorem mem_sortJobEntries (e : String × JobsEntry)
    (l : List (String × JobsEntry)) : e ∈ sortJobEntries l ↔ e ∈ l := by
  unfold sortJobEntries
  induction l with
  | nil => simp
  | cons z rest ih =>
      simp only [List.foldr_cons, mem_insertByLt, List.mem_cons, ih]

theorem mem_ids_addToBucket (acc : List (JValue × List String)) (ty : JValue)
    (n id : String) :
    (∃ b ∈ addToBucket acc ty n, id ∈ b.2) ↔ (∃ b ∈ acc, id ∈ b.2) ∨ id = n := by
  induction acc with
  | nil => simp [addToBucket]
  | cons b rest ih =>
      obtain ⟨k, ids⟩ := b
      simp only [addToBucket]
      by_cases h : pyKeyEq k ty = true
      · rw [if_pos h]
        constructor
        · rintro ⟨b2, hb2, hid⟩
          rcases List.mem_cons.mp hb2 with hb2 | hb2
          · subst hb2
            simp only [List.mem_append, List.mem_singleton] at hid
            rcases hid with hid | hid
            · exact Or.inl ⟨(k, ids), List.mem_cons_self _ _, hid⟩
            · exact Or.inr hid
          · exact Or.inl ⟨b2, List.mem_cons_of_mem _ hb2, hid⟩
        · rintro (⟨b2, hb2, hid⟩ | hid)
          · rcases List.mem_cons.mp hb2 with hb2 | hb2
            · subst hb2
              exact ⟨(k, ids ++ [n]), List.mem_cons_self _ _, by simp [hid]⟩
            · exact ⟨b2, List.mem_cons_of_mem _ hb2, hid⟩
          · exact ⟨(k, ids ++ [n]), List.mem_cons_self _ _, by simp [hid]⟩
      · rw [if_neg h]
        constructor
        · rintro ⟨b2, hb2, hid⟩
          rcases List.mem_cons.mp hb2 with hb2 | hb2
          · subst hb2
            exact Or.inl ⟨(k, ids), List.mem_cons_self _ _, hid⟩
          · rcases (ih).mp ⟨b2, hb2, hid⟩ with h2 | h2
            · obtain ⟨b3, hb3, hid3⟩ := h2
              exact Or.inl ⟨b3, List.mem_cons_of_mem _ hb3, hid3⟩
            · exact Or.inr h2
        · rintro (⟨b2, hb2, hid⟩ | hid)
          · rcases List.mem_cons.mp hb2 with hb2 | hb2
            · subst hb2
              exact ⟨(k, ids), List.mem_cons_self _ _, hid⟩
            · obtain ⟨b3, hb3, hid3⟩ := (ih).mpr (Or.inl ⟨b2, hb2, hid⟩)
              exact ⟨b3, List.mem_cons_of_mem _ hb3, hid3⟩
          · obtain ⟨b3, hb3, hid3⟩ := (ih).mpr (Or.inr hid)
            exact ⟨b3, List.mem_cons_of_mem _ hb3, hid3⟩

theorem scanJobsAux_mem (expId : String) :
    ∀ (entries : List (String × JobsEntry)) (acc buckets : List (JValue × List String)),
    scanJobsAux expId acc entries = some buckets →
    ∀ id, ((∃ b ∈ buckets, id ∈ b.2) ↔
      (∃ b ∈ acc, id ∈ b.2) ∨ jobMatches expId id entries) := by
  intro entries
  induction entries with
  | nil =>
      intro acc buckets h id
      have hb : acc = buckets := by
        simpa [scanJobsAux] using h
      subst hb
      simp [jobMatches]
  | cons p rest ih =>
      intro acc buckets h id
      obtain ⟨n, e⟩ := p
      cases e with
      | file =>
          have h2 := ih acc buckets (by simpa [scanJobsAux] using h) id
          rw [h2]
          have : jobMatches expId id ((n, JobsEntry.file) :: rest) ↔
              jobMatches expId id rest := by
            unfold jobMatches
            constructor
            · rintro ⟨d, fs, hmem, hr, hs⟩
              rcases List.mem_cons.mp hmem with hmem | hmem
              · have h3 : JobsEntry.dir d = JobsEntry.file := congrArg Prod.snd hmem
                exact JobsEntry.noConfusion h3
              · exact ⟨d, fs, hmem, hr, hs⟩
            · rintro ⟨d, fs, hmem, hr, hs⟩
              exact ⟨d, fs, List.mem_cons_of_mem _ hmem, hr, hs⟩
          rw [this]
      | dir d =>
          cases hr : d.readJson "index.json" with
          | none =>
              have h2 := ih acc buckets (by
                have hstep : scanJobsAux expId acc ((n, JobsEntry.dir d) :: rest) =
                    scanJobsAux expId acc rest := by
                  simp [scanJobsAux, hr]
                rw [← hstep]
                exact h) id
              rw [h2]
              have : jobMatches expId id ((n, JobsEntry.dir d) :: rest) ↔
                  jobMatches expId id rest := by
                unfold jobMatches
                constructor
                · rintro ⟨d2, fs, hmem, hr2, hs⟩
                  rcases List.mem_cons.mp hmem with hmem | hmem
                  · have h3 : JobsEntry.dir d2 = JobsEntry.dir d :=
                      congrArg Prod.snd hmem
                    injection h3 with h4
                    subst h4
                    rw [hr] at hr2
                    exact Option.noConfusion hr2
                  · exact ⟨d2, fs, hmem, hr2, hs⟩
                · rintro ⟨d2, fs, hmem, hr2, hs⟩
                  exact ⟨d2, fs, List.mem_cons_of_mem _ hmem, hr2, hs⟩
              rw [this]
          | some data =>
              cases data with
              | obj fs =>
                  by_cases hexp : isStrVal (lookupFieldD fs "experiment_id"
                      (JValue.str "")) expId = true
                  · by_cases hty : (lookupFieldD fs "type"
                        (JValue.str "UNKNOWN")).isHashable = true
                    · have hstep : scanJobsAux expId acc ((n, JobsEntry.dir d) :: rest) =
                          scanJobsAux expId (addToBucket acc
                            (lookupFieldD fs "type" (JValue.str "UNKNOWN")) n) rest := by
                        simp [scanJobsAux, hr, hexp, hty]
                      have h2 := ih _ buckets (hstep ▸ h) id
                      rw [h2, mem_ids_addToBucket]
                      have hiff : jobMatches expId id ((n, JobsEntry.dir d) :: rest) ↔
                          id = n ∨ jobMatches expId id rest := by
                        unfold jobMatches
                        constructor
                        · rintro ⟨d2, fs2, hmem, hr2, hs2⟩
                          rcases List.mem_cons.mp hmem with hmem | hmem
                          · have h4 : id = n := congrArg Prod.fst hmem
                            exact Or.inl h4
                          · exact Or.inr ⟨d2, fs2, hmem, hr2, hs2⟩
                        · rintro (hid | ⟨d2, fs2, hmem, hr2, hs2⟩)
                          · subst hid
                            exact ⟨d, fs, List.mem_cons_self _ _, hr, hexp⟩
                          · exact ⟨d2, fs2, List.mem_cons_of_mem _ hmem, hr2, hs2⟩
                      rw [hiff]
                      exact or_assoc
                    · exfalso
                      have : scanJobsAux expId acc ((n, JobsEntry.dir d) :: rest) = none := by
                        simp [scanJobsAux, hr, hexp, hty]
                      rw [this] at h
                      exact Option.noConfusion h
                  · have hstep : scanJobsAux expId acc ((n, JobsEntry.dir d) :: rest) =
                        scanJobsAux expId acc rest := by
                      simp [scanJobsAux, hr, hexp]
                    have h2 := ih acc buckets (hstep ▸ h) id
                    rw [h2]
                    have hiff : jobMatches expId id ((n, JobsEntry.dir d) :: rest) ↔
                        jobMatches expId id rest := by
                      unfold jobMatches
                      constructor
                      · rintro ⟨d2, fs2, hmem, hr2, hs2⟩
                        rcases List.mem_cons.mp hmem with hmem | hmem
                        · have h3 : JobsEntry.dir d2 = JobsEntry.dir d :=
                            congrArg Prod.snd hmem
                          injection h3 with h4
                          subst h4
                          rw [hr] at hr2
                          have hfs : fs2 = fs := by
                            injection hr2 with h5
                            injection h5 with h6
                            exact h6.symm
                          subst hfs
                          exact absurd hs2 hexp
                        · exact ⟨d2, fs2, hmem, hr2, hs2⟩
                      · rintro ⟨d2, fs2, hmem, hr2, hs2⟩
                        exact ⟨d2, fs2, List.mem_cons_of_mem _ hmem, hr2, hs2⟩
                    rw [hiff]
              | null => exact absurd h (by simp [scanJobsAux, hr])
              | bool b => exact absurd h (by simp [scanJobsAux, hr])
              | num m => exact absurd h (by simp [scanJobsAux, hr])
              | str s => exact absurd h (by simp [scanJobsAux, hr])
              | arr xs => exact absurd h (by simp [scanJobsAux, hr])

theorem scanJobs_mem (expId : String) (entries : List (String × JobsEntry))
    (buckets : List (JValue × List String)) (h : scanJobs expId entries = some buckets)
    (id : String) :
    (∃ b ∈ buckets, id ∈ b.2) ↔ jobMatches expId id entries := by
  have h2 := scanJobsAux_mem expId (sortJobEntries entries) [] buckets h id
  rw [h2]
  have hm : jobMatches expId id (sortJobEntries entries) ↔ jobMatches expId id entries := by
    unfold jobMatches
    constructor
    · rintro ⟨d, fs, hmem, hr, hs⟩
      exact ⟨d, fs, (mem_sortJobEntries _ _).mp hmem, hr, hs⟩
    · rintro ⟨d, fs, hmem, hr, hs⟩
      exact ⟨d, fs, (mem_sortJobEntries _ _).mpr hmem, hr, hs⟩
  rw [hm]
  simp

/-- C9: rebuild_jobs_index reads each job directory's index.json directly
and never runs the snapshot migration: a job directory with no readable
index.json is excluded from the scan result even when its legacy snapshot
files name this experiment. -/
theorem rebuild_skips_snapshot_only_jobs (expId name : String) (st : ExpState)
    (hno : ∀ d, (name, JobsEntry.dir d) ∈ st.jobs → d.readJson "index.json" = none)
    (buckets : List (JValue × List String))
    (hscan : scanJobs expId st.jobs = some buckets) :
    ∀ b ∈ buckets, name ∉ b.2 := by
  intro b hb hmem
  have h2 := (scanJobs_mem expId st.jobs buckets hscan name).mp ⟨b, hb, hmem⟩
  obtain ⟨d, fs, hmem2, hr, hs⟩ := h2
  rw [hno d hmem2] at hr
  exact Option.noConfusion hr

theorem rebuild_skips_snapshot_only_jobs_witness :
    scanJobs "e1" c9st.jobs = some [(JValue.str "UNKNOWN", ["1"])] ∧
    "5" ∉ ((JValue.str "UNKNOWN", ["1"]) : JValue × List String).2 :=
  ⟨rfl,
    rebuild_skips_snapshot_only_jobs "e1" "5" c9st
      (by
        intro d hd
        simp only [c9st, List.mem_cons, List.not_mem_nil, or_false,
          Prod.mk.injEq] at hd
        rcases hd with ⟨h1, h2⟩ | ⟨h1, h2⟩
        · exact absurd h1 (by decide)
        · injection h2 with h3
          subst h3
          rfl)
      [(JValue.str "UNKNOWN", ["1"])] rfl
      (JValue.str "UNKNOWN", ["1"]) (by simp)⟩

/-- C3 counterexample state: the only job on disk belongs to another
experiment, while the experiment's stale jobs.json still lists id 7.  The
rebuild finds zero matches, writes nothing, and reading the index returns
the stale id 7 instead of the empty set of matching ids. -/
theorem rebuild_reconciliation_counterexample :
    scanJobs "e1" c4st.jobs = some [] ∧
    getAllJobs (rebuildJobsIndex "e1" c4st) = [JValue.str "7"] ∧
    ¬ jobMatches "e1" "7" c4st.jobs := by
  refine ⟨rfl, rfl, ?_⟩
  rintro ⟨d, fs, hmem, hr, hs⟩
  simp only [c4st, List.mem_cons, List.not_mem_nil, or_false,
    Prod.mk.injEq] at hmem
  exact absurd hmem.1 (by decide)

/-! Grouping soundness of the scan and the content of the written index. -/

theorem pyKeyEq_symm (a b : JValue) : pyKeyEq a b = pyKeyEq b a := by
  cases a <;> cases b <;>
    first
      | rfl
      | exact decide_eq_decide.mpr ⟨Eq.symm, Eq.symm⟩
      | (rename_i x y; cases x <;> cases y <;> rfl)
      | (rename_i x; cases x <;> rfl)

theorem pyKeyEq_refl_of_hashable (v : JValue) (h : v.isHashable = true) :
    pyKeyEq v v = true := by
  cases v <;> simp_all [pyKeyEq, JValue.isHashable]

theorem addToBucket_sound (acc : List (JValue × List String)) (ty0 : JValue)
    (n : String) (Q : String → JValue → Prop)
    (hacc : ∀ b ∈ acc, ∀ id ∈ b.2, Q id b.1)
    (hn : ∀ k, pyKeyEq k ty0 = true → Q n k)
    (hn0 : Q n ty0) :
    ∀ b ∈ addToBucket acc ty0 n, ∀ id ∈ b.2, Q id b.1 := by
  induction acc with
  | nil =>
      intro b hb id hid
      simp only [addToBucket, List.mem_singleton] at hb
      subst hb
      simp only [List.mem_singleton] at hid
      subst hid
      exact hn0
  | cons p rest ih =>
      obtain ⟨k, ids⟩ := p
      simp only [addToBucket]
      by_cases h : pyKeyEq k ty0 = true
      · rw [if_pos h]
        intro b hb id hid
        rcases List.mem_cons.mp hb with hb | hb
        · subst hb
          simp only [List.mem_append, List.mem_singleton] at hid
          rcases hid with hid | hid
          · exact hacc (k, ids) (List.mem_cons_self _ _) id hid
          · subst hid
            exact hn k h
        · exact hacc b (List.mem_cons_of_mem _ hb) id hid
      · rw [if_neg h]
        intro b hb id hid
        rcases List.mem_cons.mp hb with hb | hb
        · subst hb
          exact hacc (k, ids) (List.mem_cons_self _ _) id hid
        · exact ih (fun b2 hb2 => hacc b2 (List.mem_cons_of_mem _ hb2)) b hb id hid

theorem scanJobsAux_typed_sound (expId : String) (Q : String → JValue → Prop) :
    ∀ (entries : List (String × JobsEntry)) (acc buckets : List (JValue × List String)),
    scanJobsAux expId acc entries = some buckets →
    (∀ b ∈ acc, ∀ id ∈ b.2, Q id b.1) →
    (∀ n d fs, (n, JobsEntry.dir d) ∈ entries →
      d.readJson "index.json" = some (JValue.obj fs) →
      isStrVal (lookupFieldD fs "experiment_id" (JValue.str "")) expId = true →
      ∀ k, pyKeyEq (lookupFieldD fs "type" (JValue.str "UNKNOWN")) k = true → Q n k) →
    ∀ b ∈ buckets, ∀ id ∈ b.2, Q id b.1 := by
  intro entries
  induction entries with
  | nil =>
      intro acc buckets h hacc hQ
      have hb : acc = buckets := by simpa [scanJobsAux] using h
      subst hb
      exact hacc
  | cons p rest ih =>
      intro acc buckets h hacc hQ
      obtain ⟨n, e⟩ := p
      cases e with
      | file =>
          exact ih acc buckets (by simpa [scanJobsAux] using h) hacc
            (fun n2 d2 fs2 hmem => hQ n2 d2 fs2 (List.mem_cons_of_mem _ hmem))
      | dir d =>
          cases hr : d.readJson "index.json" with
          | none =>
              refine ih acc buckets ?_ hacc
                (fun n2 d2 fs2 hmem => hQ n2 d2 fs2 (List.mem_cons_of_mem _ hmem))
              have hstep : scanJobsAux expId acc ((n, JobsEntry.dir d) :: rest) =
                  scanJobsAux expId acc rest := by
                simp [scanJobsAux, hr]
              rw [← hstep]
              exact h
          | some data =>
              cases data with
              | obj fs =>
                  by_cases hexp : isStrVal (lookupFieldD fs "experiment_id"
                      (JValue.str "")) expId = true
                  · by_cases hty : (lookupFieldD fs "type"
                        (JValue.str "UNKNOWN")).isHashable = true
                    · have hstep : scanJobsAux expId acc ((n, JobsEntry.dir d) :: rest) =
                          scanJobsAux expId (addToBucket acc
                            (lookupFieldD fs "type" (JValue.str "UNKNOWN")) n) rest := by
                        simp [scanJobsAux, hr, hexp, hty]
                      refine ih _ buckets (hstep ▸ h) ?_
                        (fun n2 d2 fs2 hmem => hQ n2 d2 fs2 (List.mem_cons_of_mem _ hmem))
                      refine addToBucket_sound acc _ n Q hacc ?_ ?_
                      · intro k hk
                        refine hQ n d fs (List.mem_cons_self _ _) hr hexp k ?_
                        rw [pyKeyEq_symm]
                        exact hk
                      · exact hQ n d fs (List.mem_cons_self _ _) hr hexp _
                          (pyKeyEq_refl_of_hashable _ hty)
                    · exfalso
                      have hnone : scanJobsAux expId acc ((n, JobsEntry.dir d) :: rest) = none := by
                        simp [scanJobsAux, hr, hexp, hty]
                      rw [hnone] at h
                      exact Option.noConfusion h
                  · refine ih acc buckets ?_ hacc
                      (fun n2 d2 fs2 hmem => hQ n2 d2 fs2 (List.mem_cons_of_mem _ hmem))
                    have hstep : scanJobsAux expId acc ((n, JobsEntry.dir d) :: rest) =
                        scanJobsAux expId acc rest := by
                      simp [scanJobsAux, hr, hexp]
                    rw [← hstep]
                    exact h
              | null => exact absurd h (by simp [scanJobsAux, hr])
              | bool b => exact absurd h (by simp [scanJobsAux, hr])
              | num m => exact absurd h (by simp [scanJobsAux, hr])
              | str s => exact absurd h (by simp [scanJobsAux, hr])
              | arr xs => exact absurd h (by simp [scanJobsAux, hr])

theorem scanJobs_typed_sound (expId : String) (entries : List (String × JobsEntry))
    (buckets : List (JValue × List String)) (h : scanJobs expId entries = some buckets) :
    ∀ b ∈ buckets, ∀ id ∈ b.2, jobMatchesTyped expId id b.1 entries := by
  have h2 := scanJobsAux_typed_sound expId
    (fun id k => jobMatchesTyped expId id k entries) (sortJobEntries entries) [] buckets h
    (by intro b hb; exact absurd hb (List.not_mem_nil b))
    (by
      intro n d fs hmem hr hexp k hk
      exact ⟨d, fs, (mem_sortJobEntries _ _).mp hmem, hr, hexp, hk⟩)
  exact h2

theorem setField_eq_append_of_none (fs : List (String × JValue)) (k : String)
    (v : JValue) (h : lookupField fs k = none) : setField fs k v = fs ++ [(k, v)] := by
  induction fs with
  | nil => rfl
  | cons p rest ih =>
      obtain ⟨a, b⟩ := p
      by_cases ha : a = k
      · rw [show lookupField ((a, b) :: rest) k = some b by simp [lookupField, ha]] at h
        exact Option.noConfusion h
      · have h2 : lookupField rest k = none := by
          simpa [lookupField, ha] using h
        simp [setField, ha, ih h2]

theorem foldl_setField_buckets (buckets : List (JValue × List String)) :
    ∀ acc, (∀ p ∈ buckets, lookupField acc (jsonKeyStr p.1) = none) →
    (buckets.map (fun p => jsonKeyStr p.1)).Nodup →
    buckets.foldl (fun a p => setField a (jsonKeyStr p.1)
        (JValue.arr (p.2.map JValue.str))) acc =
      acc ++ buckets.map (fun p => (jsonKeyStr p.1, JValue.arr (p.2.map JValue.str))) := by
  induction buckets with
  | nil => intro acc _ _; simp
  | cons p rest ih =>
      intro acc hfresh hnodup
      simp only [List.foldl_cons]
      rw [setField_eq_append_of_none _ _ _ (hfresh p (List.mem_cons_self _ _))]
      have hnd : jsonKeyStr p.1 ∉ (rest.map fun r => jsonKeyStr r.1) ∧
          (rest.map fun r => jsonKeyStr r.1).Nodup := by
        rw [List.map_cons] at hnodup
        exact List.nodup_cons.mp hnodup
      have hfresh2 : ∀ q ∈ rest, lookupField
          (acc ++ [(jsonKeyStr p.1, JValue.arr (p.2.map JValue.str))])
          (jsonKeyStr q.1) = none := by
        intro q hq
        rw [lookupField_append_of_none _ _ _ (hfresh q (List.mem_cons_of_mem _ hq))]
        have hne : jsonKeyStr q.1 ≠ jsonKeyStr p.1 := by
          intro heq
          exact hnd.1 (heq ▸ List.mem_map_of_mem (fun r => jsonKeyStr r.1) hq)
        simp only [lookupField]
        rw [if_neg (fun heq => hne heq.symm)]
      rw [ih _ hfresh2 hnd.2]
      simp

theorem bucketsToJson_eq (buckets : List (JValue × List String))
    (hk : (buckets.map (fun p => jsonKeyStr p.1)).Nodup) :
    bucketsToJson buckets =
      JValue.obj (buckets.map (fun p =>
        (jsonKeyStr p.1, JValue.arr (p.2.map JValue.str)))) := by
  unfold bucketsToJson
  rw [foldl_setField_buckets buckets [] (by intro p hp; rfl) hk]
  rfl

theorem foldl_collect_arr (buckets : List (JValue × List String)) :
    ∀ (init : List JValue),
    (buckets.map (fun p => (jsonKeyStr p.1, JValue.arr (p.2.map JValue.str)))).foldl
      (fun acc q => match q.2 with | .arr xs => acc ++ xs | _ => acc) init =
      init ++ (buckets.map (fun p => p.2.map JValue.str)).flatten := by
  induction buckets with
  | nil => intro init; simp
  | cons p rest ih =>
      intro init
      simp only [List.map_cons, List.foldl_cons, List.flatten_cons, ih]
      simp [List.append_assoc]

theorem readJson_of_readFile (d : ResourceDir) (n : String) (v : JValue)
    (hn : ¬ n = "latest.txt") (h : d.readFile n = some (some v)) :
    d.readJson n = some v := by
  unfold ResourceDir.readJson
  rw [if_neg hn, h]
  rfl

/-- C3 (amended): when the reconciliation scan completes without aborting
(a readable index.json that parses to a non-object raises inside the scan
and nothing is written), finds at least one matching job, the experiment
directory exists and the bucket type labels serialize to distinct JSON
keys, then rebuild_jobs_index overwrites jobs.json with the scan result
and reading all jobs back returns exactly the ids of jobs whose
experiment_id equals this experiment, grouped under each job's type field
with default bucket UNKNOWN; unreadable or unparseable job metadata is
skipped without raising. -/
theorem rebuild_then_read_reconciliation (expId : String) (st : ExpState)
    (buckets : List (JValue × List String)) (ed : ResourceDir)
    (hscan : scanJobs expId st.jobs = some buckets)
    (hne : buckets ≠ [])
    (hed : st.expDir = some ed)
    (hkeys : (buckets.map (fun p => jsonKeyStr p.1)).Nodup) :
    getAllJobs (rebuildJobsIndex expId st) =
      (buckets.map (fun p => p.2.map JValue.str)).flatten ∧
    (∀ id, (JValue.str id ∈ getAllJobs (rebuildJobsIndex expId st)) ↔
      jobMatches expId id st.jobs) ∧
    (∀ b ∈ buckets, ∀ id ∈ b.2, jobMatchesTyped expId id b.1 st.jobs) := by
  have hrb : rebuildJobsIndex expId st = { st with expDir := some (ed.writeFile "jobs.json" (some (bucketsToJson buckets))) } := by
    unfold rebuildJobsIndex
    rw [hscan]
    cases buckets with
    | nil => exact absurd rfl hne
    | cons b bs =>
        dsimp only
        rw [if_neg (by simp), hed]
  have hga : getAllJobs (rebuildJobsIndex expId st) =
      (buckets.map (fun p => p.2.map JValue.str)).flatten := by
    rw [hrb]
    unfold getAllJobs
    dsimp only
    rw [readJson_of_readFile _ _ _ (by decide)
      (readFile_writeFile_self ed "jobs.json" (some (bucketsToJson buckets)))]
    rw [bucketsToJson_eq buckets hkeys]
    dsimp only
    rw [foldl_collect_arr buckets []]
    rfl
  refine ⟨hga, ?_, scanJobs_typed_sound expId st.jobs buckets hscan⟩
  intro id
  rw [hga]
  have hmem : (JValue.str id ∈ (buckets.map (fun p => p.2.map JValue.str)).flatten) ↔
      ∃ b ∈ buckets, id ∈ b.2 := by
    simp only [List.mem_flatten, List.mem_map]
    constructor
    · rintro ⟨l, ⟨b, hb, hl⟩, hidl⟩
      subst hl
      obtain ⟨s, hs, hse⟩ := List.mem_map.mp hidl
      injection hse with hse2
      subst hse2
      exact ⟨b, hb, hs⟩
    · rintro ⟨b, hb, hid⟩
      exact ⟨b.2.map JValue.str, ⟨b, hb, rfl⟩, List.mem_map_of_mem JValue.str hid⟩
  rw [hmem]
  exact scanJobs_mem expId st.jobs buckets hscan id

theorem rebuild_then_read_reconciliation_witness :
    getAllJobs (rebuildJobsIndex "e1" c9st) =
      (([(JValue.str "UNKNOWN", ["1"])] : List (JValue × List String)).map
        (fun p => p.2.map JValue.str)).flatten :=
  (rebuild_then_read_reconciliation "e1" c9st [(JValue.str "UNKNOWN", ["1"])]
    c4expdir rfl (by simp) rfl (by simp)).1

/-! The get_jobs filter loop on canonical job directories. -/

/-- A canonical directory (index.json present, no snapshot files left)
needs no migration. -/
theorem migrate_of_canonical (d : ResourceDir)
    (h1 : (d.readFile "index.json").isSome = true)
    (h2 : d.hasSnapshotFiles = false) : migrate d = d := by
  simp [migrate, h1, h2]

theorem updateEntry_self (l : List (String × JobsEntry)) (name : String)
    (e : JobsEntry) (h : lookupEntry l name = some e) :
    updateEntry l name e = l := by
  induction l with
  | nil => rfl
  | cons p rest ih =>
      obtain ⟨n, e0⟩ := p
      by_cases hn : n = name
      · subst hn
        have he : e0 = e := by
          have h2 : some e0 = some e := by simpa [lookupEntry] using h
          injection h2
        subst he
        simp [updateEntry]
      · have h2 : lookupEntry rest name = some e := by
          simpa [lookupEntry, hn] using h
        simp [updateEntry, hn, ih h2]

theorem loadJobDoc_of_clean (jobsDir : String) (idv : JValue) (st : ExpState)
    (d : ResourceDir)
    (hl : lookupEntry st.jobs (secureFilename (pyStr idv)) = some (JobsEntry.dir d))
    (hidx : (d.readFile "index.json").isSome = true)
    (hsnap : d.hasSnapshotFiles = false) :
    loadJobDoc jobsDir idv st =
      some (st, (d.readJson "index.json").getD (JValue.obj [])) := by
  unfold loadJobDoc
  dsimp only
  rw [hl]
  dsimp only
  unfold jobGetHeal
  rw [if_pos hidx]
  unfold getJsonData
  dsimp only
  rw [migrate_of_canonical d hidx hsnap]
  rw [updateEntry_self st.jobs _ _ hl]

theorem getJobsLoop_clean (jobsDir status : String) :
    ∀ (ids : List JValue) (st : ExpState) (acc : List JValue),
    (∀ idv ∈ ids, cleanJobsAt st.jobs (secureFilename (pyStr idv))) →
    getJobsLoop jobsDir status ids st acc =
      some (st, acc ++ ids.filterMap (docFilterSpec st.jobs status)) := by
  intro ids
  induction ids with
  | nil =>
      intro st acc _
      simp [getJobsLoop]
  | cons idv rest ih =>
      intro st acc hclean
      have hrest : ∀ i ∈ rest, cleanJobsAt st.jobs (secureFilename (pyStr i)) :=
        fun i hi => hclean i (List.mem_cons_of_mem _ hi)
      have hhead := hclean idv (List.mem_cons_self _ _)
      simp only [getJobsLoop]
      cases he : lookupEntry st.jobs (secureFilename (pyStr idv)) with
      | none =>
          have hload : loadJobDoc jobsDir idv st = none := by
            unfold loadJobDoc
            dsimp only
            rw [he]
          rw [hload]
          rw [ih st acc hrest]
          simp [List.filterMap_cons, docFilterSpec, he]
      | some e =>
          cases e with
          | file =>
              have hload : loadJobDoc jobsDir idv st = none := by
                unfold loadJobDoc
                dsimp only
                rw [he]
              rw [hload]
              rw [ih st acc hrest]
              simp [List.filterMap_cons, docFilterSpec, he]
          | dir d =>
              obtain ⟨hfile, hsnap⟩ := hhead d he
              have hidx : (d.readFile "index.json").isSome = true := by
                rcases hfile with ⟨fs, hf⟩ | hf <;> rw [hf] <;> rfl
              rw [loadJobDoc_of_clean jobsDir idv st d he hidx hsnap]
              obtain ⟨fs, hdoc⟩ : ∃ fs, (d.readJson "index.json").getD (JValue.obj []) =
                  JValue.obj fs := by
                rcases hfile with ⟨fs, hf⟩ | hf
                · exact ⟨fs, by unfold ResourceDir.readJson; rw [if_neg (by decide), hf]; rfl⟩
                · exact ⟨[], by unfold ResourceDir.readJson; rw [if_neg (by decide), hf]; rfl⟩
              rw [hdoc]
              dsimp only
              have hspec : docFilterSpec st.jobs status idv =
                  (if passFilter status fs then some (JValue.obj fs) else none) := by
                unfold docFilterSpec
                rw [he]
                dsimp only
                rw [hdoc]
              by_cases hst : status = ""
              · subst hst
                rw [if_neg (by simp)]
                by_cases hdel : isStrVal (lookupFieldD fs "status" (JValue.str "")) "DELETED" = true
                · rw [if_pos (by simp [hdel])]
                  rw [ih st acc hrest]
                  have hpf : passFilter "" fs = false := by
                    simp [passFilter, hdel]
                  simp [List.filterMap_cons, hspec, hpf]
                · rw [if_neg (by simp [hdel])]
                  by_cases hjd : hasField fs "job_data" = true
                  · rw [if_pos hjd]
                    rw [ih st (acc ++ [JValue.obj fs]) hrest]
                    have hpf : passFilter "" fs = true := by
                      have hdel2 : isStrVal (lookupFieldD fs "status" (JValue.str "")) "DELETED" = false := by
                        revert hdel
                        cases isStrVal (lookupFieldD fs "status" (JValue.str "")) "DELETED" <;> simp
                      simp [passFilter, hdel2, hjd]
                    simp [List.filterMap_cons, hspec, hpf]
                  · rw [if_neg hjd]
                    rw [ih st acc hrest]
                    have hpf : passFilter "" fs = false := by
                      have hjd2 : hasField fs "job_data" = false := by
                        revert hjd
                        cases hasField fs "job_data" <;> simp
                      simp [passFilter, hjd2]
                    simp [List.filterMap_cons, hspec, hpf]
              · by_cases hmatch : isStrVal (lookupFieldD fs "status" (JValue.str "")) status = true
                · rw [if_neg (by simp [hst, hmatch])]
                  rw [if_neg (by simp [hst])]
                  by_cases hjd : hasField fs "job_data" = true
                  · rw [if_pos hjd]
                    rw [ih st (acc ++ [JValue.obj fs]) hrest]
                    have hpf : passFilter status fs = true := by
                      simp [passFilter, hst, hmatch, hjd]
                    simp [List.filterMap_cons, hspec, hpf]
                  · rw [if_neg hjd]
                    rw [ih st acc hrest]
                    have hpf : passFilter status fs = false := by
                      have hjd2 : hasField fs "job_data" = false := by
                        revert hjd
                        cases hasField fs "job_data" <;> simp
                      simp [passFilter, hjd2]
                    simp [List.filterMap_cons, hspec, hpf]
                · have hm2 : isStrVal (lookupFieldD fs "status" (JValue.str "")) status = false := by
                    revert hmatch
                    cases isStrVal (lookupFieldD fs "status" (JValue.str "")) status <;> simp
                  rw [if_pos (by simp [hst, hm2])]
                  rw [ih st acc hrest]
                  have hpf : passFilter status fs = false := by
                    simp [passFilter, hst, hm2]
                  simp [List.filterMap_cons, hspec, hpf]

/-- C7 (amended): get_jobs rebuilds the index first and returns exactly
the documents of indexed jobs that pass the filters: with a non-blank
status only jobs whose status equals it, with a blank status everything
except status DELETED, and in all cases only entries that carry a
job_data key - possibly empty, since the code tests key presence, not
non-emptiness.  Stated for candidate ids resolving to canonical job
directories (index.json present, no leftover snapshots). -/
theorem get_jobs_filters (jobsDir expId ty status : String) (st : ExpState)
    (cands : List JValue)
    (hc : (if ty ≠ "" then iterElems (getJobsOfType ty (rebuildJobsIndex expId st))
           else some (getAllJobs (rebuildJobsIndex expId st))) = some cands)
    (hclean : ∀ idv ∈ cands,
      cleanJobsAt (rebuildJobsIndex expId st).jobs (secureFilename (pyStr idv))) :
    expGetJobs jobsDir expId ty status st =
      some (rebuildJobsIndex expId st,
        cands.filterMap (docFilterSpec (rebuildJobsIndex expId st).jobs status)) := by
  unfold expGetJobs
  dsimp only
  rw [hc]
  dsimp only
  rw [getJobsLoop_clean jobsDir status cands _ [] hclean]
  rfl

/-- C7 counterexample: a job whose job_data is the empty map is returned
by get_jobs, so the returned entries are not restricted to non-empty
job_data maps. -/
theorem get_jobs_empty_job_data_counterexample :
    expGetJobs "jobs" "e1" "" "" c7st =
      some (rebuildJobsIndex "e1" c7st, [JValue.obj c7dirFields]) ∧
    lookupField c7dirFields "job_data" = some (JValue.obj []) :=
  ⟨rfl, rfl⟩

theorem get_jobs_filters_witness :
    expGetJobs "jobs" "e1" "" "" c7st =
      some (rebuildJobsIndex "e1" c7st,
        ([JValue.str "1"]).filterMap
          (docFilterSpec (rebuildJobsIndex "e1" c7st).jobs "")) :=
  get_jobs_filters "jobs" "e1" "" "" c7st [JValue.str "1"] rfl
    (by
      intro idv hm
      simp only [List.mem_singleton] at hm
      subst hm
      intro d hd
      have h0 : lookupEntry (rebuildJobsIndex "e1" c7st).jobs
          (secureFilename (pyStr (JValue.str "1"))) = some (JobsEntry.dir c7dir) := rfl
      rw [h0] at hd
      injection hd with h1
      injection h1 with h2
      subst h2
      exact ⟨Or.inl ⟨c7dirFields, rfl⟩, rfl⟩)

/-! Log-path resolution (Job.get_log_path). -/

theorem fsExists_fsTouch (dirPath : String) (d : ResourceDir) (ext : List String)
    (p : String) :
    fsExists dirPath (fsTouch dirPath d ext p).1 (fsTouch dirPath d ext p).2 p = true := by
  unfold fsTouch fsExists
  cases hp : pathInDir dirPath p with
  | some name =>
      by_cases hn : name = "latest.txt"
      · subst hn
        dsimp only
        rw [if_pos rfl]
        simp [ResourceDir.isFile]
      · dsimp only
        rw [if_neg hn]
        unfold ResourceDir.isFile
        rw [readFile_writeFile_self]
        rfl
  | none =>
      dsimp only
      by_cases hc : ext.contains p = true
      · rw [if_pos hc]
        exact hc
      · rw [if_neg hc]
        simp

theorem ensureExistsResult (dirPath : String) (c : String × ResourceDir)
    (ext : List String) :
    fsExists dirPath
      (if fsExists dirPath c.2 ext c.1 then (c.1, c.2, ext)
       else (c.1, (fsTouch dirPath c.2 ext c.1).1, (fsTouch dirPath c.2 ext c.1).2)).2.1
      (if fsExists dirPath c.2 ext c.1 then (c.1, c.2, ext)
       else (c.1, (fsTouch dirPath c.2 ext c.1).1, (fsTouch dirPath c.2 ext c.1).2)).2.2
      (if fsExists dirPath c.2 ext c.1 then (c.1, c.2, ext)
       else (c.1, (fsTouch dirPath c.2 ext c.1).1, (fsTouch dirPath c.2 ext c.1).2)).1 =
      true := by
  by_cases h : fsExists dirPath c.2 ext c.1 = true
  · rw [if_pos h]
    exact h
  · rw [if_neg h]
    exact fsExists_fsTouch dirPath c.2 ext c.1

/-- C8 (amended): get_log_path returns the default output_id.txt path
whenever that file already exists - even when a non-blank override is
stored; the override is consulted only when the default file is absent,
and otherwise the default path is returned.  In every case the returned
path refers to a file that exists (created empty) when the call returns. -/
theorem get_log_path_spec (jobsDir idStr : String) (d : ResourceDir)
    (ext : List String) :
    (fsExists (jobDirPath jobsDir idStr)
        (getLogPath jobsDir idStr d ext).2.1 (getLogPath jobsDir idStr d ext).2.2
        (getLogPath jobsDir idStr d ext).1 = true) ∧
    (fsExists (jobDirPath jobsDir idStr) d ext
        (jobDirPath jobsDir idStr ++ "/output_" ++ idStr ++ ".txt") = true →
      getLogPath jobsDir idStr d ext =
        (jobDirPath jobsDir idStr ++ "/output_" ++ idStr ++ ".txt", d, ext)) ∧
    (∀ fs jfs s,
      fsExists (jobDirPath jobsDir idStr) d ext
        (jobDirPath jobsDir idStr ++ "/output_" ++ idStr ++ ".txt") = false →
      d.readFile "index.json" = some (some (JValue.obj fs)) →
      d.hasSnapshotFiles = false →
      lookupFieldD fs "job_data" (JValue.obj []) = JValue.obj jfs →
      lookupField jfs "output_file_path" = some (JValue.str s) →
      strTrim s ≠ "" →
      (getLogPath jobsDir idStr d ext).1 = s) ∧
    (∀ fs jfs,
      fsExists (jobDirPath jobsDir idStr) d ext
        (jobDirPath jobsDir idStr ++ "/output_" ++ idStr ++ ".txt") = false →
      d.readFile "index.json" = some (some (JValue.obj fs)) →
      d.hasSnapshotFiles = false →
      lookupFieldD fs "job_data" (JValue.obj []) = JValue.obj jfs →
      lookupField jfs "output_file_path" = none →
      (getLogPath jobsDir idStr d ext).1 =
        jobDirPath jobsDir idStr ++ "/output_" ++ idStr ++ ".txt") := by
  refine ⟨?_, ?_, ?_, ?_⟩
  · unfold getLogPath
    dsimp only
    exact ensureExistsResult (jobDirPath jobsDir idStr) _ ext
  · intro h
    unfold getLogPath
    dsimp only
    rw [if_pos h]
    dsimp only
    rw [if_pos h]
  · intro fs jfs s hdef hidx hsnap hjd hov hs
    have hg : getJsonData d = (d, JValue.obj fs) := by
      unfold getJsonData
      rw [migrate_of_canonical d (by rw [hidx]; rfl) hsnap]
      dsimp only
      rw [readJson_of_readFile d "index.json" (JValue.obj fs) (by decide) hidx]
      rfl
    have hdef2 : ¬ (fsExists (jobDirPath jobsDir idStr) d ext
        (jobDirPath jobsDir idStr ++ "/output_" ++ idStr ++ ".txt") = true) := by
      rw [hdef]
      simp
    unfold getLogPath
    dsimp only
    rw [if_neg hdef2]
    rw [hg]
    dsimp only
    rw [hjd]
    dsimp only
    rw [hov]
    dsimp only
    rw [if_pos hs]
    by_cases hfin : fsExists (jobDirPath jobsDir idStr) d ext s = true
    · rw [if_pos hfin]
    · rw [if_neg hfin]
  · intro fs jfs hdef hidx hsnap hjd hov
    have hg : getJsonData d = (d, JValue.obj fs) := by
      unfold getJsonData
      rw [migrate_of_canonical d (by rw [hidx]; rfl) hsnap]
      dsimp only
      rw [readJson_of_readFile d "index.json" (JValue.obj fs) (by decide) hidx]
      rfl
    have hdef2 : ¬ (fsExists (jobDirPath jobsDir idStr) d ext
        (jobDirPath jobsDir idStr ++ "/output_" ++ idStr ++ ".txt") = true) := by
      rw [hdef]
      simp
    unfold getLogPath
    dsimp only
    rw [if_neg hdef2]
    rw [hg]
    dsimp only
    rw [hjd]
    dsimp only
    rw [hov]
    dsimp only
    by_cases hfin : fsExists (jobDirPath jobsDir idStr) d ext
        (jobDirPath jobsDir idStr ++ "/output_" ++ idStr ++ ".txt") = true
    · rw [if_pos hfin]
    · rw [if_neg hfin]

/-- C8 counterexample: with the default file already on disk, the
non-blank override stored in job_data is ignored and the default path is
returned, contradicting override-whenever-present resolution. -/
theorem get_log_path_counterexample :
    (getLogPath "jobs" "1" c8dir []).1 = "jobs/1/output_1.txt" ∧
    lookupField [("output_file_path", JValue.str "/elsewhere/log.txt")]
      "output_file_path" = some (JValue.str "/elsewhere/log.txt") ∧
    strTrim "/elsewhere/log.txt" ≠ "" ∧
    ("jobs/1/output_1.txt" : String) ≠ "/elsewhere/log.txt" :=
  ⟨rfl, rfl, by decide, by decide⟩

theorem get_log_path_spec_witness :
    (getLogPath "jobs" "1" c8odir []).1 = "/tmp/o.txt" ∧
    fsExists (jobDirPath "jobs" "1")
      (getLogPath "jobs" "1" c8odir []).2.1 (getLogPath "jobs" "1" c8odir []).2.2
      (getLogPath "jobs" "1" c8odir []).1 = true :=
  ⟨(get_log_path_spec "jobs" "1" c8odir []).2.2.1
      [("job_data", JValue.obj [("output_file_path", JValue.str "/tmp/o.txt")])]
      [("output_file_path", JValue.str "/tmp/o.txt")] "/tmp/o.txt"
      (by decide) rfl (by decide) rfl rfl (by decide),
   (get_log_path_spec "jobs" "1" c8odir []).1⟩

/-! The completion protocol (C6), via chained job_data updates on a
canonical job directory. -/

theorem hasField_of_lookup_some (fs : List (String × JValue)) (k : String)
    (v : JValue) (h : lookupField fs k = some v) : hasField fs k = true := by
  induction fs with
  | nil => simp [lookupField] at h
  | cons p rest ih =>
      obtain ⟨a, b⟩ := p
      by_cases ha : a = k
      · simp [hasField, ha]
      · have h2 : lookupField rest k = some v := by simpa [lookupField, ha] using h
        have h3 := ih h2
        show (decide (a = k) || hasField rest k) = true
        rw [h3]
        simp

theorem updateJobDataField_canonicalWith (d : ResourceDir)
    (fs jfs : List (String × JValue)) (k : String) (v : JValue)
    (h : canonicalWith d fs jfs) :
    updateJobDataField d k v = (d.writeFile "index.json" (some (JValue.obj
        (setField fs "job_data" (JValue.obj (setField jfs k v))))), true) ∧
    canonicalWith (updateJobDataField d k v).1
      (setField fs "job_data" (JValue.obj (setField jfs k v)))
      (setField jfs k v) := by
  obtain ⟨hidx, hsnap, hhf, hjd⟩ := h
  have hm : migrate d = d := migrate_of_canonical d (by rw [hidx]; rfl) hsnap
  have hg : getJsonData d = (d, JValue.obj fs) := by
    unfold getJsonData
    rw [hm]
    dsimp only
    rw [readJson_of_readFile d "index.json" (JValue.obj fs) (by decide) hidx]
    rfl
  have hupd : updateJobDataField d k v = (d.writeFile "index.json" (some (JValue.obj
      (setField fs "job_data" (JValue.obj (setField jfs k v))))), true) := by
    simp only [updateJobDataField, hg]
    rw [if_pos hhf, hjd]
    dsimp only
    simp only [setJsonData, JValue.isObj]
    rw [if_pos trivial, hm]
    rfl
  refine ⟨hupd, ?_⟩
  rw [hupd]
  refine ⟨readFile_writeFile_self d "index.json" _, ?_, ?_, ?_⟩
  · rw [hasSnapshotFiles_writeFile d _ _ isSnapshotName_index_json]
    exact hsnap
  · exact hasField_of_lookup_some _ _ _ (lookupField_setField_self fs "job_data" _)
  · exact lookupField_setField_self fs "job_data" _

theorem chainUpdates (kvs : List (String × JValue)) :
    ∀ d fs jfs, canonicalWith d fs jfs →
    ∃ fs2, canonicalWith
      (kvs.foldl (fun s kv => (updateJobDataField s kv.1 kv.2).1) d) fs2
      (kvs.foldl (fun j kv => setField j kv.1 kv.2) jfs) := by
  induction kvs with
  | nil => intro d fs jfs h; exact ⟨fs, h⟩
  | cons kv rest ih =>
      intro d fs jfs h
      obtain ⟨heq, hcan⟩ := updateJobDataField_canonicalWith d fs jfs kv.1 kv.2 h
      simp only [List.foldl_cons]
      exact ih _ _ _ hcan

theorem lookup_foldl_not_mem (kvs : List (String × JValue)) :
    ∀ jfs (key : String), (∀ kv ∈ kvs, ¬ kv.1 = key) →
    lookupField (kvs.foldl (fun j kv => setField j kv.1 kv.2) jfs) key =
      lookupField jfs key := by
  induction kvs with
  | nil => intro jfs key _; rfl
  | cons kv rest ih =>
      intro jfs key h
      simp only [List.foldl_cons]
      rw [ih _ key (fun kv2 h2 => h kv2 (List.mem_cons_of_mem _ h2))]
      exact lookupField_setField_ne jfs kv.1 key kv.2
        (fun he => h kv (List.mem_cons_self _ _) he.symm)

theorem scorePart_keys (score : Option JValue) :
    ∀ kv ∈ scorePart score, kv.1 = "score" := by
  intro kv h
  cases score with
  | none => simp [scorePart] at h
  | some sc =>
      simp only [scorePart, List.mem_singleton] at h
      rw [h]

theorem pathPart_keys (key : String) (o : Option String) :
    ∀ kv ∈ pathPart key o, kv.1 = key := by
  intro kv h
  cases o with
  | none => simp [pathPart] at h
  | some p =>
      simp only [pathPart] at h
      by_cases ht : strTrim p ≠ ""
      · rw [if_pos ht] at h
        simp only [List.mem_singleton] at h
        rw [h]
      · rw [if_neg ht] at h
        simp at h

theorem statusPart_keys (outcome : String) :
    ∀ kv ∈ statusPart outcome, kv.1 = "status" := by
  intro kv h
  unfold statusPart at h
  by_cases ho : outcome = "failed"
  · rw [if_pos ho] at h
    simp only [List.mem_singleton] at h
    rw [h]
  · rw [if_neg ho] at h
    simp at h

theorem bounded_not_mem (l : List (String × JValue)) (bound key : String)
    (hb : ∀ kv ∈ l, kv.1 = bound) (hne : ¬ bound = key) :
    ∀ kv ∈ l, ¬ kv.1 = key := by
  intro kv h he
  rw [hb kv h] at he
  exact hne he

/-- C6 (spec-modelled): set_job_completion_status raises InvalidArgument
for any outcome other than exactly "success" or "failed"; for a valid
outcome it records the outcome and details into job_data, stores the
score map verbatim when given, records each optional path only if it is
non-empty after trimming (a blank path leaves the stored value
untouched), and on "failed" additionally forces job_data.status =
"FAILED".  Stated for a canonical job directory with an object job_data
map. -/
theorem set_job_completion_status_spec (d : ResourceDir)
    (outcome details : String) (score : Option JValue) (ap pp : Option String)
    (fs jfs : List (String × JValue))
    (hidx : d.readFile "index.json" = some (some (JValue.obj fs)))
    (hsnap : d.hasSnapshotFiles = false)
    (hhf : hasField fs "job_data" = true)
    (hjd : lookupField fs "job_data" = some (JValue.obj jfs)) :
    (outcome ≠ "success" → outcome ≠ "failed" →
      setJobCompletionStatus d outcome details score ap pp = none) ∧
    (outcome = "success" ∨ outcome = "failed" →
      ∃ d2 fs2 jfs2, setJobCompletionStatus d outcome details score ap pp = some d2 ∧
        d2.readFile "index.json" = some (some (JValue.obj fs2)) ∧
        lookupField fs2 "job_data" = some (JValue.obj jfs2) ∧
        lookupField jfs2 "completion_status" = some (JValue.str outcome) ∧
        lookupField jfs2 "completion_details" = some (JValue.str details) ∧
        (∀ sc, score = some sc → lookupField jfs2 "score" = some sc) ∧
        (∀ p, ap = some p → strTrim p ≠ "" →
          lookupField jfs2 "additional_output_path" = some (JValue.str p)) ∧
        (∀ p, ap = some p → strTrim p = "" →
          lookupField jfs2 "additional_output_path" =
            lookupField jfs "additional_output_path") ∧
        (∀ p, pp = some p → strTrim p ≠ "" →
          lookupField jfs2 "plot_data_path" = some (JValue.str p)) ∧
        (∀ p, pp = some p → strTrim p = "" →
          lookupField jfs2 "plot_data_path" = lookupField jfs "plot_data_path") ∧
        (outcome = "failed" → lookupField jfs2 "status" = some (JValue.str "FAILED"))) := by
  constructor
  · intro h1 h2
    unfold setJobCompletionStatus
    rw [if_pos (by simp [h1, h2])]
  · intro hout
    have hvalid : (!(outcome = "success" || outcome = "failed")) = false := by
      rcases hout with h | h <;> simp [h]
    obtain ⟨fs2, hcan⟩ := chainUpdates (completionUpdates outcome details score ap pp)
      d fs jfs ⟨hidx, hsnap, hhf, hjd⟩
    refine ⟨(completionUpdates outcome details score ap pp).foldl
        (fun s kv => (updateJobDataField s kv.1 kv.2).1) d, fs2,
      (completionUpdates outcome details score ap pp).foldl
        (fun j kv => setField j kv.1 kv.2) jfs, ?_, hcan.1, hcan.2.2.2,
      ?_, ?_, ?_, ?_, ?_, ?_, ?_, ?_⟩
    · unfold setJobCompletionStatus
      rw [if_neg (by rw [hvalid]; simp)]
    · unfold completionUpdates
      simp only [List.foldl_append, List.foldl_cons, List.foldl_nil]
      rw [lookup_foldl_not_mem _ _ _ (bounded_not_mem _ _ _ (statusPart_keys outcome) (by decide))]
      rw [lookup_foldl_not_mem _ _ _ (bounded_not_mem _ _ _ (pathPart_keys "plot_data_path" pp) (by decide))]
      rw [lookup_foldl_not_mem _ _ _ (bounded_not_mem _ _ _ (pathPart_keys "additional_output_path" ap) (by decide))]
      rw [lookup_foldl_not_mem _ _ _ (bounded_not_mem _ _ _ (scorePart_keys score) (by decide))]
      rw [lookupField_setField_ne _ _ _ _ (by decide)]
      exact lookupField_setField_self jfs "completion_status" _
    · unfold completionUpdates
      simp only [List.foldl_append, List.foldl_cons, List.foldl_nil]
      rw [lookup_foldl_not_mem _ _ _ (bounded_not_mem _ _ _ (statusPart_keys outcome) (by decide))]
      rw [lookup_foldl_not_mem _ _ _ (bounded_not_mem _ _ _ (pathPart_keys "plot_data_path" pp) (by decide))]
      rw [lookup_foldl_not_mem _ _ _ (bounded_not_mem _ _ _ (pathPart_keys "additional_output_path" ap) (by decide))]
      rw [lookup_foldl_not_mem _ _ _ (bounded_not_mem _ _ _ (scorePart_keys score) (by decide))]
      exact lookupField_setField_self _ "completion_details" _
    · intro sc hsc
      subst hsc
      unfold completionUpdates
      simp only [List.foldl_append, List.foldl_cons, List.foldl_nil]
      rw [lookup_foldl_not_mem _ _ _ (bounded_not_mem _ _ _ (statusPart_keys outcome) (by decide))]
      rw [lookup_foldl_not_mem _ _ _ (bounded_not_mem _ _ _ (pathPart_keys "plot_data_path" pp) (by decide))]
      rw [lookup_foldl_not_mem _ _ _ (bounded_not_mem _ _ _ (pathPart_keys "additional_output_path" ap) (by decide))]
      unfold scorePart
      simp only [List.foldl_cons, List.foldl_nil]
      exact lookupField_setField_self _ "score" sc
    · intro p hp ht
      subst hp
      unfold completionUpdates
      simp only [List.foldl_append, List.foldl_cons, List.foldl_nil]
      rw [lookup_foldl_not_mem _ _ _ (bounded_not_mem _ _ _ (statusPart_keys outcome) (by decide))]
      rw [lookup_foldl_not_mem _ _ _ (bounded_not_mem _ _ _ (pathPart_keys "plot_data_path" pp) (by decide))]
      simp only [pathPart]
      rw [if_pos ht]
      simp only [List.foldl_cons, List.foldl_nil]
      exact lookupField_setField_self _ "additional_output_path" _
    · intro p hp ht
      subst hp
      unfold completionUpdates
      simp only [List.foldl_append, List.foldl_cons, List.foldl_nil]
      rw [lookup_foldl_not_mem _ _ _ (bounded_not_mem _ _ _ (statusPart_keys outcome) (by decide))]
      rw [lookup_foldl_not_mem _ _ _ (bounded_not_mem _ _ _ (pathPart_keys "plot_data_path" pp) (by decide))]
      simp only [pathPart]
      rw [if_neg (by rw [ht]; simp)]
      simp only [List.foldl_nil]
      rw [lookup_foldl_not_mem _ _ _ (bounded_not_mem _ _ _ (scorePart_keys score) (by decide))]
      rw [lookupField_setField_ne _ _ _ _ (by decide)]
      exact lookupField_setField_ne _ _ _ _ (by decide)
    · intro p hp ht
      subst hp
      unfold completionUpdates
      simp only [List.foldl_append, List.foldl_cons, List.foldl_nil]
      rw [lookup_foldl_not_mem _ _ _ (bounded_not_mem _ _ _ (statusPart_keys outcome) (by decide))]
      simp only [pathPart]
      rw [if_pos ht]
      simp only [List.foldl_cons, List.foldl_nil]
      exact lookupField_setField_self _ "plot_data_path" _
    · intro p hp ht
      subst hp
      unfold completionUpdates
      simp only [List.foldl_append, List.foldl_cons, List.foldl_nil]
      rw [lookup_foldl_not_mem _ _ _ (bounded_not_mem _ _ _ (statusPart_keys outcome) (by decide))]
      rw [show pathPart "plot_data_path" (some p) = [] by simp only [pathPart]; rw [if_neg (by rw [ht]; simp)]]
      simp only [List.foldl_nil]
      rw [lookup_foldl_not_mem _ _ _ (bounded_not_mem _ _ _ (pathPart_keys "additional_output_path" ap) (by decide))]
      rw [lookup_foldl_not_mem _ _ _ (bounded_not_mem _ _ _ (scorePart_keys score) (by decide))]
      rw [lookupField_setField_ne _ _ _ _ (by decide)]
      exact lookupField_setField_ne _ _ _ _ (by decide)
    · intro hfail
      unfold completionUpdates
      simp only [List.foldl_append, List.foldl_cons, List.foldl_nil]
      unfold statusPart
      rw [if_pos hfail]
      simp only [List.foldl_cons, List.foldl_nil]
      exact lookupField_setField_self _ "status" _

theorem set_job_completion_status_spec_witness :
    setJobCompletionStatus c6dir "bogus" "oops" none none none = none ∧
    (∃ d2 fs2 jfs2,
      setJobCompletionStatus c6dir "failed" "went wrong" (some (JValue.obj
        [("acc", JValue.num 1)])) none none = some d2 ∧
      d2.readFile "index.json" = some (some (JValue.obj fs2)) ∧
      lookupField fs2 "job_data" = some (JValue.obj jfs2) ∧
      lookupField jfs2 "completion_status" = some (JValue.str "failed") ∧
      lookupField jfs2 "status" = some (JValue.str "FAILED")) := by
  constructor
  · exact (set_job_completion_status_spec c6dir "bogus" "oops" none none none
      [("id", JValue.str "2"), ("job_data", JValue.obj []),
       ("status", JValue.str "RUNNING")] [] rfl rfl rfl rfl).1
      (by decide) (by decide)
  · obtain ⟨d2, fs2, jfs2, h1, h2, h3, h4, h5, h6, h7, h8, h9, h10, h11⟩ :=
      (set_job_completion_status_spec c6dir "failed" "went wrong"
        (some (JValue.obj [("acc", JValue.num 1)])) none none
        [("id", JValue.str "2"), ("job_data", JValue.obj []),
         ("status", JValue.str "RUNNING")] [] rfl rfl rfl rfl).2 (Or.inr rfl)
    exact ⟨d2, fs2, jfs2, h1, h2, h3, h4, h11 rfl⟩

/-! Cascading delete (C1). -/

theorem lookupEntry_updateEntry_ne (l : List (String × JobsEntry)) (n : String)
    (e : JobsEntry) (m : String) (h : m ≠ n) :
    lookupEntry (updateEntry l n e) m = lookupEntry l m := by
  induction l with
  | nil => rfl
  | cons p rest ih =>
      obtain ⟨a, b⟩ := p
      by_cases ha : a = n
      · subst ha
        simp [updateEntry, lookupEntry, Ne.symm h]
      · simp [updateEntry, lookupEntry, ha, ih]

theorem lookupEntry_updateEntry_self (l : List (String × JobsEntry)) (n : String)
    (e e0 : JobsEntry) (h : lookupEntry l n = some e0) :
    lookupEntry (updateEntry l n e) n = some e := by
  induction l with
  | nil => simp [lookupEntry] at h
  | cons p rest ih =>
      obtain ⟨a, b⟩ := p
      by_cases ha : a = n
      · subst ha
        simp [updateEntry, lookupEntry]
      · have h2 : lookupEntry rest n = some e0 := by simpa [lookupEntry, ha] using h
        simp [updateEntry, lookupEntry, ha, ih h2]

/-- BaseLabResource._update_json_data_field on a canonical directory with
an object document: the field is set and the document written back. -/
theorem updateJsonDataField_canonical (d : ResourceDir)
    (fs : List (String × JValue)) (k : String) (v : JValue)
    (hidx : d.readFile "index.json" = some (some (JValue.obj fs)))
    (hsnap : d.hasSnapshotFiles = false) :
    updateJsonDataField d k v =
      (d.writeFile "index.json" (some (JValue.obj (setField fs k v))), true) := by
  have hm : migrate d = d := migrate_of_canonical d (by rw [hidx]; rfl) hsnap
  have hg : getJsonData d = (d, JValue.obj fs) := by
    unfold getJsonData
    rw [hm]
    dsimp only
    rw [readJson_of_readFile d "index.json" (JValue.obj fs) (by decide) hidx]
    rfl
  simp only [updateJsonDataField, hg]
  simp only [setJsonData, JValue.isObj]
  rw [if_pos trivial, hm]
  rfl

theorem deleteOneJob_of_clean (jobsDir : String) (st : ExpState) (idv : JValue)
    (d : ResourceDir) (fs : List (String × JValue))
    (hl : lookupEntry st.jobs (secureFilename (pyStr idv)) = some (JobsEntry.dir d))
    (hidx : d.readFile "index.json" = some (some (JValue.obj fs)))
    (hsnap : d.hasSnapshotFiles = false) :
    deleteOneJob jobsDir st idv = { st with jobs := updateEntry st.jobs (secureFilename (pyStr idv)) (JobsEntry.dir (d.writeFile "index.json" (some (JValue.obj (setField fs "status" (JValue.str "DELETED")))))) } := by
  unfold deleteOneJob
  dsimp only
  rw [hl]
  dsimp only
  unfold jobGetHeal
  rw [if_pos (by rw [hidx]; rfl)]
  unfold jobDelete updateStatus
  rw [updateJsonDataField_canonical d fs "status" (JValue.str "DELETED") hidx hsnap]

theorem deleteOneJob_of_missing (jobsDir : String) (st : ExpState) (idv : JValue)
    (hl : lookupEntry st.jobs (secureFilename (pyStr idv)) = none) :
    deleteOneJob jobsDir st idv = st := by
  unfold deleteOneJob
  dsimp only
  rw [hl]

theorem deleteOneJob_of_file (jobsDir : String) (st : ExpState) (idv : JValue)
    (hl : lookupEntry st.jobs (secureFilename (pyStr idv)) = some JobsEntry.file) :
    deleteOneJob jobsDir st idv = st := by
  unfold deleteOneJob
  dsimp only
  rw [hl]

theorem deleteAll_fold (jobsDir : String) :
    ∀ (ids : List JValue) (st : ExpState),
    (∀ idv ∈ ids, cleanDelEntry st.jobs (secureFilename (pyStr idv))) →
    ((ids.map (fun idv => secureFilename (pyStr idv))).Nodup) →
    (ids.foldl (deleteOneJob jobsDir) st).expDir = st.expDir ∧
    (ids.foldl (deleteOneJob jobsDir) st).ext = st.ext ∧
    (∀ name, (∀ idv ∈ ids, secureFilename (pyStr idv) ≠ name) →
      lookupEntry (ids.foldl (deleteOneJob jobsDir) st).jobs name =
        lookupEntry st.jobs name) ∧
    (∀ idv ∈ ids, ∀ d fs,
      lookupEntry st.jobs (secureFilename (pyStr idv)) = some (JobsEntry.dir d) →
      d.readFile "index.json" = some (some (JValue.obj fs)) →
      lookupEntry (ids.foldl (deleteOneJob jobsDir) st).jobs
          (secureFilename (pyStr idv)) =
        some (JobsEntry.dir (d.writeFile "index.json"
          (some (JValue.obj (setField fs "status" (JValue.str "DELETED"))))))) ∧
    (∀ idv ∈ ids, lookupEntry st.jobs (secureFilename (pyStr idv)) = none →
      lookupEntry (ids.foldl (deleteOneJob jobsDir) st).jobs
        (secureFilename (pyStr idv)) = none) := by
  intro ids
  induction ids with
  | nil =>
      intro st _ _
      exact ⟨rfl, rfl, fun _ _ => rfl, fun idv h => absurd h (List.not_mem_nil idv),
        fun idv h => absurd h (List.not_mem_nil idv)⟩
  | cons idv rest ih =>
      intro st hclean hnodup
      have hnd : secureFilename (pyStr idv) ∉
          rest.map (fun i => secureFilename (pyStr i)) ∧
          (rest.map (fun i => secureFilename (pyStr i))).Nodup := by
        rw [List.map_cons] at hnodup
        exact List.nodup_cons.mp hnodup
      have hrestne : ∀ i ∈ rest, secureFilename (pyStr i) ≠ secureFilename (pyStr idv) := by
        intro i hi he
        exact hnd.1 (he ▸ List.mem_map_of_mem (fun j => secureFilename (pyStr j)) hi)
      simp only [List.foldl_cons]
      cases he : lookupEntry st.jobs (secureFilename (pyStr idv)) with
      | none =>
          rw [deleteOneJob_of_missing jobsDir st idv he]
          obtain ⟨h1, h2, h3, h4, h5⟩ := ih st
            (fun i hi => hclean i (List.mem_cons_of_mem _ hi)) hnd.2
          refine ⟨h1, h2, ?_, ?_, ?_⟩
          · intro name hn
            exact h3 name (fun i hi => hn i (List.mem_cons_of_mem _ hi))
          · intro i hi d fs hd hf
            rcases List.mem_cons.mp hi with hi | hi
            · subst hi
              rw [he] at hd
              exact Option.noConfusion hd
            · exact h4 i hi d fs hd hf
          · intro i hi hd
            rcases List.mem_cons.mp hi with hi | hi
            · subst hi
              rw [h3 (secureFilename (pyStr i)) (fun j hj => hrestne j hj)]
              exact hd
            · exact h5 i hi hd
      | some e =>
          cases e with
          | file =>
              rw [deleteOneJob_of_file jobsDir st idv he]
              obtain ⟨h1, h2, h3, h4, h5⟩ := ih st
                (fun i hi => hclean i (List.mem_cons_of_mem _ hi)) hnd.2
              refine ⟨h1, h2, ?_, ?_, ?_⟩
              · intro name hn
                exact h3 name (fun i hi => hn i (List.mem_cons_of_mem _ hi))
              · intro i hi d fs hd hf
                rcases List.mem_cons.mp hi with hi | hi
                · subst hi
                  rw [he] at hd
                  exact JobsEntry.noConfusion (Option.some.inj hd)
                · exact h4 i hi d fs hd hf
              · intro i hi hd
                rcases List.mem_cons.mp hi with hi | hi
                · subst hi
                  rw [he] at hd
                  exact Option.noConfusion hd
                · exact h5 i hi hd
          | dir d =>
              obtain ⟨⟨fs, hidx⟩, hsnap⟩ :=
                hclean idv (List.mem_cons_self _ _) d he
              rw [deleteOneJob_of_clean jobsDir st idv d fs he hidx hsnap]
              set st1 : ExpState := { st with jobs := updateEntry st.jobs (secureFilename (pyStr idv)) (JobsEntry.dir (d.writeFile "index.json" (some (JValue.obj (setField fs "status" (JValue.str "DELETED")))))) } with hst1
              have hj1 : st1.jobs = updateEntry st.jobs (secureFilename (pyStr idv)) (JobsEntry.dir (d.writeFile "index.json" (some (JValue.obj (setField fs "status" (JValue.str "DELETED")))))) := by
                rw [hst1]
              have hclean2 : ∀ i ∈ rest, cleanDelEntry st1.jobs (secureFilename (pyStr i)) := by
                intro i hi d2 hd2
                rw [hj1, lookupEntry_updateEntry_ne _ _ _ _ (hrestne i hi)] at hd2
                exact hclean i (List.mem_cons_of_mem _ hi) d2 hd2
              obtain ⟨h1, h2, h3, h4, h5⟩ := ih st1 hclean2 hnd.2
              have hex1 : st1.expDir = st.expDir := by rw [hst1]
              have hex2 : st1.ext = st.ext := by rw [hst1]
              refine ⟨by rw [h1, hex1], by rw [h2, hex2], ?_, ?_, ?_⟩
              · intro name hn
                rw [h3 name (fun i hi => hn i (List.mem_cons_of_mem _ hi)), hj1]
                exact lookupEntry_updateEntry_ne _ _ _ _
                  (fun he2 => hn idv (List.mem_cons_self _ _) he2.symm)
              · intro i hi d2 fs2 hd2 hf2
                rcases List.mem_cons.mp hi with hi | hi
                · subst hi
                  rw [he] at hd2
                  injection hd2 with hd3
                  injection hd3 with hd4
                  subst hd4
                  rw [hidx] at hf2
                  injection hf2 with hf3
                  injection hf3 with hf4
                  injection hf4 with hf5
                  subst hf5
                  rw [h3 (secureFilename (pyStr i)) (fun j hj => hrestne j hj), hj1]
                  exact lookupEntry_updateEntry_self st.jobs _ _ _ he
                · rw [h4 i hi d2 fs2 (by
                    rw [hj1, lookupEntry_updateEntry_ne _ _ _ _ (hrestne i hi)]
                    exact hd2) hf2]
              · intro i hi hd
                rcases List.mem_cons.mp hi with hi | hi
                · subst hi
                  rw [he] at hd
                  exact Option.noConfusion hd
                · exact h5 i hi (by
                    rw [hj1, lookupEntry_updateEntry_ne _ _ _ _ (hrestne i hi)]
                    exact hd)

/-- C1 (amended): Experiment.delete soft-deletes every job currently
indexed under this experiment - each existing job directory REMAINS on
disk, its document's status becoming DELETED with every other field
unchanged - and then removes the experiment's own directory; an indexed
job id with no directory on disk is skipped without error, and unrelated
entries of the jobs root are untouched.  Stated for canonical job
directories and distinct indexed names. -/
theorem experiment_delete_soft (jobsDir : String) (st : ExpState)
    (hclean : ∀ idv ∈ getAllJobs st, cleanDelEntry st.jobs (secureFilename (pyStr idv)))
    (hnodup : ((getAllJobs st).map (fun idv => secureFilename (pyStr idv))).Nodup) :
    (expDelete jobsDir st).expDir = none ∧
    (expDelete jobsDir st).ext = st.ext ∧
    (∀ name, (∀ idv ∈ getAllJobs st, secureFilename (pyStr idv) ≠ name) →
      lookupEntry (expDelete jobsDir st).jobs name = lookupEntry st.jobs name) ∧
    (∀ idv ∈ getAllJobs st, ∀ d fs,
      lookupEntry st.jobs (secureFilename (pyStr idv)) = some (JobsEntry.dir d) →
      d.readFile "index.json" = some (some (JValue.obj fs)) →
      lookupEntry (expDelete jobsDir st).jobs (secureFilename (pyStr idv)) =
        some (JobsEntry.dir (d.writeFile "index.json"
          (some (JValue.obj (setField fs "status" (JValue.str "DELETED")))))) ∧
      lookupField (setField fs "status" (JValue.str "DELETED")) "status" =
        some (JValue.str "DELETED") ∧
      (∀ k, k ≠ "status" →
        lookupField (setField fs "status" (JValue.str "DELETED")) k =
          lookupField fs k)) ∧
    (∀ idv ∈ getAllJobs st, lookupEntry st.jobs (secureFilename (pyStr idv)) = none →
      lookupEntry (expDelete jobsDir st).jobs (secureFilename (pyStr idv)) = none) := by
  obtain ⟨h1, h2, h3, h4, h5⟩ := deleteAll_fold jobsDir (getAllJobs st) st hclean hnodup
  refine ⟨rfl, h2, h3, ?_, h5⟩
  intro idv hi d fs hd hf
  exact ⟨h4 idv hi d fs hd hf, lookupField_setField_self fs "status" _,
    fun k hk => lookupField_setField_ne fs "status" k _ hk⟩

/-- C1 counterexample: after deleting an experiment with 3 indexed jobs,
all 3 job directories are still present on the jobs root (soft delete),
contradicting their claimed absence from disk; the experiment directory
itself is gone and the dangling indexed id raised no error. -/
theorem experiment_delete_counterexample :
    (expDelete "jobs" c1st).expDir = none ∧
    getAllJobs c1st = [JValue.str "1", JValue.str "2", JValue.str "3", JValue.str "9"] ∧
    (∃ d1, lookupEntry (expDelete "jobs" c1st).jobs "1" = some (JobsEntry.dir d1)) ∧
    (∃ d2, lookupEntry (expDelete "jobs" c1st).jobs "2" = some (JobsEntry.dir d2)) ∧
    (∃ d3, lookupEntry (expDelete "jobs" c1st).jobs "3" = some (JobsEntry.dir d3)) :=
  ⟨rfl, rfl, ⟨_, rfl⟩, ⟨_, rfl⟩, ⟨_, rfl⟩⟩

theorem experiment_delete_soft_witness :
    (expDelete "jobs" c1st).expDir = none ∧
    lookupEntry (expDelete "jobs" c1st).jobs "9" = none := by
  have h := experiment_delete_soft "jobs" c1st
    (by
      intro idv hm
      have hga : getAllJobs c1st =
          [JValue.str "1", JValue.str "2", JValue.str "3", JValue.str "9"] := rfl
      rw [hga] at hm
      simp only [List.mem_cons, List.not_mem_nil, or_false] at hm
      rcases hm with rfl | rfl | rfl | rfl
      · intro d hd
        have h0 : lookupEntry c1st.jobs (secureFilename (pyStr (JValue.str "1"))) =
            some (JobsEntry.dir (c1job "e1")) := rfl
        rw [h0] at hd
        injection hd with hd1
        injection hd1 with hd2
        subst hd2
        exact ⟨⟨[("experiment_id", JValue.str "e1"),
          ("status", JValue.str "NOT_STARTED"), ("job_data", JValue.obj [])], rfl⟩, rfl⟩
      · intro d hd
        have h0 : lookupEntry c1st.jobs (secureFilename (pyStr (JValue.str "2"))) =
            some (JobsEntry.dir (c1job "e1")) := rfl
        rw [h0] at hd
        injection hd with hd1
        injection hd1 with hd2
        subst hd2
        exact ⟨⟨[("experiment_id", JValue.str "e1"),
          ("status", JValue.str "NOT_STARTED"), ("job_data", JValue.obj [])], rfl⟩, rfl⟩
      · intro d hd
        have h0 : lookupEntry c1st.jobs (secureFilename (pyStr (JValue.str "3"))) =
            some (JobsEntry.dir (c1job "e1")) := rfl
        rw [h0] at hd
        injection hd with hd1
        injection hd1 with hd2
        subst hd2
        exact ⟨⟨[("experiment_id", JValue.str "e1"),
          ("status", JValue.str "NOT_STARTED"), ("job_data", JValue.obj [])], rfl⟩, rfl⟩
      · intro d hd
        have h0 : lookupEntry c1st.jobs (secureFilename (pyStr (JValue.str "9"))) =
            none := rfl
        rw [h0] at hd
        exact Option.noConfusion hd)
    (by decide)
  refine ⟨h.1, ?_⟩
  exact h.2.2.2.2 (JValue.str "9") (by
    have hga : getAllJobs c1st =
        [JValue.str "1", JValue.str "2", JValue.str "3", JValue.str "9"] := rfl
    rw [hga]
    simp) rfl

end Lab
